import Mathlib

/-!
Verification development for the Painter-SAM2 backend
(`src/backend/modal_sam2.py`, `src/backend/main.py`).

Images and masks are shallowly embedded: a decoded image is a pair of
dimensions together with a pixel function (numpy arrays are total maps on
indices), per-pixel float arithmetic is carried out in `ℚ` (the source uses
float32; the blending formulas are embedded exactly), and the final
`astype(np.uint8)` cast is truncation toward zero of nonnegative values.
External library primitives with no pixel-level contract relevant to the
claims (cv2.resize content, cv2.INTER_LANCZOS4 content) are model
parameters; their output *shapes* are fixed exactly as cv2 guarantees.
The stochastic texture overlay (`np.random.rand`) is passed in explicitly
as a per-request texture field.
-/

namespace PainterSAM2

/-- A decoded RGB image: height, width, and an (r,g,b) pixel map,
embedding a numpy `uint8` array of shape (h, w, 3). -/
structure Img where
  h : ℕ
  w : ℕ
  pix : ℕ → ℕ → ℕ × ℕ × ℕ

/-- A decoded boolean mask: height, width and a boolean pixel map,
embedding a numpy `bool` array of shape (h, w). -/
structure MaskG where
  h : ℕ
  w : ℕ
  m : ℕ → ℕ → Bool

/-- numpy `astype(np.uint8)` on the nonnegative in-range values produced by
the blending pipeline: truncation toward zero. -/
def toU8 (q : ℚ) : ℕ := (⌊q⌋).toNat

/-- Value of one hexadecimal digit, as in Python `int(_, 16)`. -/
def hexVal (c : Char) : ℕ :=
  if '0' ≤ c ∧ c ≤ '9' then c.toNat - 48
  else if 'a' ≤ c ∧ c ≤ 'f' then c.toNat - 87
  else if 'A' ≤ c ∧ c ≤ 'F' then c.toNat - 55
  else 0

/-- Value of the two-hex-digit slice starting at index `i`. -/
def hexPair (cs : List Char) (i : ℕ) : ℕ :=
  16 * hexVal (cs.getD i '0') + hexVal (cs.getD (i + 1) '0')

/-- `SAM2Model._hex_to_rgb`: strip leading sharp signs, then read the three
two-digit channel values. -/
def hex_to_rgb (s : String) : ℕ × ℕ × ℕ :=
  let cs := s.toList.dropWhile (· = '#')
  (hexPair cs 0, hexPair cs 2, hexPair cs 4)

/-- OpenCV BORDER_REFLECT_101 index folding for a 3x3 kernel
(single reflection suffices at radius 1; a length-1 axis maps to 0). -/
def reflect101 (n : ℕ) (j : ℤ) : ℤ :=
  if n = 1 then 0
  else if j < 0 then -j
  else if (n : ℤ) ≤ j then 2 * (n : ℤ) - 2 - j
  else j

/-- The mask read as a 0/1 field at a (possibly out-of-range) coordinate,
with REFLECT_101 border handling, embedding `mask.astype(np.float32)`. -/
def maskField (mask : MaskG) (y x : ℤ) : ℚ :=
  if mask.m (reflect101 mask.h y).toNat (reflect101 mask.w x).toNat then 1 else 0

/-- Separable Gaussian weight for `cv2.GaussianBlur(_, (3,3), 0)`: OpenCV's
fixed small kernel for ksize 3 and sigma 0 is (1/4, 1/2, 1/4). -/
def gw (d : ℤ) : ℚ := if d = 0 then 1/2 else 1/4

/-- `cv2.GaussianBlur(mask.astype(np.float32), (3,3), 0)` at pixel (y,x). -/
def blurredMask (mask : MaskG) (y x : ℕ) : ℚ :=
  (([-1, 0, 1] : List ℤ).map (fun dy =>
    (([-1, 0, 1] : List ℤ).map (fun dx =>
      gw dy * gw dx * maskField mask ((y : ℤ) + dy) ((x : ℤ) + dx))).sum)).sum

/-- `np.any(mask)` over the mask's own extent. -/
def anyMask (mask : MaskG) : Bool :=
  (List.range mask.h).any fun y => (List.range mask.w).any fun x => mask.m y x

/-- The three-pass per-channel blend of `SAM2Model._paint_mask_on_image`
at pixel (y,x) with source channel value `p0`, in exact real arithmetic:
pass 1 blends toward the target channel at `opacity` where the mask is true;
pass 2 (only when `opacity > 0.3`) multiplies masked pixels by the texture;
pass 3 (only when the mask has any true pixel) blends masked pixels back
toward the original channel value with weight `blurredMask * 0.2`.
The source performs these passes in numpy float32; where a claim turns on
that rounding (the opacity-0 identity), the float32-faithful
`blendChannelF32zero` below is used instead. -/
def blendChannel (mask : MaskG) (colorC : ℕ) (opacity : ℚ)
    (texture : ℕ → ℕ → ℚ) (hasAny : Bool) (y x : ℕ) (p0 : ℕ) : ℚ :=
  let p0q : ℚ := (p0 : ℚ)
  let p1 := if mask.m y x then p0q * (1 - opacity) + (colorC : ℚ) * opacity else p0q
  let p2 := if opacity > 3/10 then
      (if mask.m y x then p1 * texture y x else p1) else p1
  if hasAny then
    (if mask.m y x then
        p2 * (1 - blurredMask mask y x * (2/10)) + p0q * (blurredMask mask y x * (2/10))
      else p2)
  else p2

/-- `SAM2Model._paint_mask_on_image(image, mask, color, opacity)` with the
per-pixel random texture passed explicitly; returns a new image, the input
is not mutated. -/
def paint_mask_on_image (img : Img) (mask : MaskG) (color : String)
    (opacity : ℚ) (texture : ℕ → ℕ → ℚ) : Img :=
  let rgb := hex_to_rgb color
  let hasAny := anyMask mask
  { h := img.h, w := img.w,
    pix := fun y x =>
      let p := img.pix y x
      (toU8 (blendChannel mask rgb.1 opacity texture hasAny y x p.1),
       toU8 (blendChannel mask rgb.2.1 opacity texture hasAny y x p.2.1),
       toU8 (blendChannel mask rgb.2.2 opacity texture hasAny y x p.2.2)) }

/-! IEEE floating-point rounding. The source computes the painting passes
in numpy float32 (a Python literal such as `0.2` is first a float64) and
the downscaling ratio in Python float64. `froundB b q` is
round-to-nearest, ties-to-even, at `b` fraction bits (b = 23 for float32,
b = 52 for float64); it is exact for every magnitude arising here (the
binary-exponent search carries fuel 300, ample for values between 2^-300
and 2^300, and no overflow or subnormal is reachable). The arithmetic is
phrased through `mkRat` and integer operations so that concrete instances
evaluate inside the kernel; the bridge lemmas `qmul_eq`, `qadd_eq`,
`qsub_eq` and `pow2_eq` identify these with the field operations of ℚ. -/

/-- Product of rationals in kernel-evaluable form (`mkRat` normalizes). -/
def qmul (a b : ℚ) : ℚ := mkRat (a.num * b.num) (a.den * b.den)

/-- Sum of rationals in kernel-evaluable form. -/
def qadd (a b : ℚ) : ℚ := mkRat (a.num * b.den + b.num * a.den) (a.den * b.den)

/-- Difference of rationals in kernel-evaluable form. -/
def qsub (a b : ℚ) : ℚ := mkRat (a.num * b.den - b.num * a.den) (a.den * b.den)

/-- The power `2 ^ k` for an integer exponent, in kernel-evaluable form. -/
def pow2 (k : ℤ) : ℚ :=
  if 0 ≤ k then mkRat (2 ^ k.toNat) 1 else mkRat 1 (2 ^ (-k).toNat)

/-- Binary-exponent search, halving: for `1 ≤ q`, returns `e` plus the
number of halvings needed to bring `q` below 2. -/
def ilogUp : ℕ → ℚ → ℤ → ℤ
  | 0, _, e => e
  | fuel + 1, q, e =>
      if q < mkRat 2 1 then e else ilogUp fuel (qmul q (mkRat 1 2)) (e + 1)

/-- Binary-exponent search, doubling: for `q < 1`, returns `e` minus the
number of doublings needed to bring `q` to at least 1. -/
def ilogDown : ℕ → ℚ → ℤ → ℤ
  | 0, _, e => e
  | fuel + 1, q, e =>
      if mkRat 1 1 ≤ q then e else ilogDown fuel (qmul q (mkRat 2 1)) (e - 1)

/-- The binary exponent `⌊log₂ q⌋` of a positive rational (for
`2^-300 ≤ q < 2^300`). -/
def ilog2q (q : ℚ) : ℤ :=
  if mkRat 1 1 ≤ q then ilogUp 300 q 0 else ilogDown 300 q 0

/-- Round a scaled mantissa to the nearest integer, ties to even: `n` is
the floor of the scaled value and `frac` its fractional part. -/
def roundMant (n : ℤ) (frac : ℚ) : ℤ :=
  if frac < mkRat 1 2 then n
  else if mkRat 1 2 < frac then n + 1
  else if n % 2 = 0 then n else n + 1

/-- Round a positive rational to `b` fraction bits: scale by
`2 ^ (b - ⌊log₂ q⌋)`, round the mantissa to nearest-even, scale back. -/
def froundPos (b : ℕ) (q : ℚ) : ℚ :=
  qmul
    (mkRat
      (roundMant ⌊qmul q (pow2 ((b : ℤ) - ilog2q q))⌋
        (qsub (qmul q (pow2 ((b : ℤ) - ilog2q q)))
          (mkRat ⌊qmul q (pow2 ((b : ℤ) - ilog2q q))⌋ 1))) 1)
    (pow2 (ilog2q q - (b : ℤ)))

/-- IEEE-754 round-to-nearest-even at `b` fraction bits, for the exponent
range arising in this program. -/
def froundB (b : ℕ) (q : ℚ) : ℚ :=
  if q = 0 then 0
  else if q < 0 then qmul (mkRat (-1) 1) (froundPos b (mkRat (-q.num) q.den))
  else froundPos b q

/-- Rounding to float32 precision. -/
def f32round (q : ℚ) : ℚ := froundB 23 q

/-- Rounding to float64 precision. -/
def f64round (q : ℚ) : ℚ := froundB 52 q

/-- Sum of a list of rationals in kernel-evaluable form. -/
def qsum : List ℚ → ℚ
  | [] => mkRat 0 1
  | a :: l => qadd a (qsum l)

/-- The Gaussian weight `gw` in kernel-evaluable form. -/
def gwQ (d : ℤ) : ℚ := if d = 0 then mkRat 1 2 else mkRat 1 4

/-- The 0/1 mask field `maskField` in kernel-evaluable form. -/
def maskFieldQ (mask : MaskG) (y x : ℤ) : ℚ :=
  if mask.m (reflect101 mask.h y).toNat (reflect101 mask.w x).toNat then mkRat 1 1
  else mkRat 0 1

/-- The blurred mask `blurredMask` in kernel-evaluable form (proved equal
to it in `blurredMaskQ_eq`). Its values are multiples of 1/16 in [0, 1],
so the float32 `cv2.GaussianBlur` computes them exactly. -/
def blurredMaskQ (mask : MaskG) (y x : ℕ) : ℚ :=
  qsum (([-1, 0, 1] : List ℤ).map (fun dy =>
    qsum (([-1, 0, 1] : List ℤ).map (fun dx =>
      qmul (qmul (gwQ dy) (gwQ dx))
        (maskFieldQ mask ((y : ℤ) + dy) ((x : ℤ) + dx))))))

/-- Float32 semantics of `_paint_mask_on_image`'s per-channel blend at
opacity 0. Pass 1 (`p0 * (1 - 0) + c * 0`) is an exact identity even in
float32 and the texture pass is skipped, so only the edge-blend pass
remains: `edge_blend = blurred_mask * 0.2` (the float64 literal 0.2 is
cast to float32 by numpy, then multiplied in float32), followed by
`p0 * (1 - edge_blend) + p0 * edge_blend` with every numpy array
operation rounded to float32. -/
def blendChannelF32zero (mask : MaskG) (hasAny : Bool) (y x : ℕ) (p0 : ℕ) : ℚ :=
  let p0q : ℚ := mkRat p0 1
  if hasAny then
    (if mask.m y x then
      let eb := f32round (qmul (blurredMaskQ mask y x)
        (f32round (f64round (mkRat 2 10))))
      f32round (qadd
        (f32round (qmul p0q (f32round (qsub (mkRat 1 1) eb))))
        (f32round (qmul p0q eb)))
    else p0q)
  else p0q

/-- `SAM2Model._paint_mask_on_image(image, mask, color, 0)` with float32
arithmetic: the color is irrelevant at opacity 0 (its contribution is an
exact multiplication by zero), so the whole pipeline reduces to the
float32 edge-blend pass followed by the `astype(np.uint8)` truncation. -/
def paint_mask_on_image_f32_zero (img : Img) (mask : MaskG) : Img :=
  { h := img.h, w := img.w,
    pix := fun y x =>
      let p := img.pix y x
      (toU8 (blendChannelF32zero mask (anyMask mask) y x p.1),
       toU8 (blendChannelF32zero mask (anyMask mask) y x p.2.1),
       toU8 (blendChannelF32zero mask (anyMask mask) y x p.2.2)) }

/-! Multi-mask painting (`SAM2Model.paint_multiple_masks`). Each request
dict is embedded post-decoding: `mask?` is the decoded inline mask (`none`
models an absent or falsy "mask" key, which the loop skips), `color?` and
`opacity?` model `.get` with defaults "#FF0000" and 0.7, and `texture` is
that step's random draw. `resizeMaskFn` is the model parameter for
`cv2.resize(mask.astype(np.uint8), (w, h)) > 0` pixel content. -/

/-- One entry of the `colored_masks` list passed to
`SAM2Model.paint_multiple_masks`. -/
structure ColoredMaskReq where
  mask? : Option MaskG
  color? : Option String
  opacity? : Option ℚ
  texture : ℕ → ℕ → ℚ

variable (resizeMaskFn : MaskG → ℕ → ℕ → ℕ → ℕ → Bool)

/-- Dimension fit-up before painting: resize the mask when its shape
differs from the image shape (cv2.resize returns exactly the target
shape). -/
def fitMask (mask : MaskG) (h w : ℕ) : MaskG :=
  if mask.h = h ∧ mask.w = w then mask
  else { h := h, w := w, m := resizeMaskFn mask h w }

/-- The body of the painting loop in `SAM2Model.paint_multiple_masks` for
one request: skip when the mask reference is falsy, otherwise fit the mask
to the current image and paint it. -/
def paintStep (img : Img) (r : ColoredMaskReq) : Img :=
  match r.mask? with
  | none => img
  | some mk =>
      paint_mask_on_image img (fitMask resizeMaskFn mk img.h img.w)
        (r.color?.getD "#FF0000") (r.opacity?.getD (7/10)) r.texture

/-- `SAM2Model.paint_multiple_masks`: start from the (copied) original
image and run the painting loop over the requests in order. -/
def paint_multiple_masks (img : Img) : List ColoredMaskReq → Img
  | [] => img
  | r :: rs => paint_multiple_masks (paintStep resizeMaskFn img r) rs

/-! Mask selection (`SAM2Model.get_mask_at_point`). Candidate dicts are
embedded post-decoding: `mask?` is the decoded candidate mask (`none`
models a candidate whose decode raised, which the loop's per-candidate
try/except skips), `score?` models `mask_info.get("score", 0)`. -/

/-- One entry of the `all_masks` candidate list. -/
structure CandMask where
  mask? : Option MaskG
  score? : Option ℚ

/-- Point containment test of the selection loop:
`0 <= y < mask.shape[0] and 0 <= x < mask.shape[1]` and the pixel value. -/
def containsPt (mask : MaskG) (x y : ℤ) : Bool :=
  decide (0 ≤ y) && decide (y < (mask.h : ℤ)) &&
  decide (0 ≤ x) && decide (x < (mask.w : ℤ)) &&
  mask.m y.toNat x.toNat

/-- Whether a candidate decodes and contains the query point. -/
def candHit (x y : ℤ) (c : CandMask) : Bool :=
  match c.mask? with
  | none => false
  | some mk => containsPt mk x y

/-- The candidate's score with a missing score read as 0. -/
def candScore (c : CandMask) : ℚ := c.score?.getD 0

/-- Loop body of `get_mask_at_point`: state is `(best_mask, best_score)`,
initially `(None, 0)`; a containing candidate replaces the state only when
its score is strictly greater than the running best score. -/
def gmapStep (x y : ℤ) (s : Option CandMask × ℚ) (c : CandMask) :
    Option CandMask × ℚ :=
  match c.mask? with
  | none => s
  | some mk =>
      if containsPt mk x y then
        (if candScore c > s.2 then (some c, candScore c) else s)
      else s

/-- `SAM2Model.get_mask_at_point`: fold the selection loop over the
candidates and fail (`ValueError`, surfaced as NotFound) when no best mask
was recorded. -/
def get_mask_at_point (x y : ℤ) (cands : List CandMask) :
    Except String CandMask :=
  match (cands.foldl (gmapStep x y) (none, 0)).1 with
  | none => .error "NotFound"
  | some c => .ok c

/-! Service layer (`SAM2Service` in `main.py`). The single HTTP round trip
to the remote compositor is embedded as its outcome: either a successful
payload, a transport/HTTP failure (exception inside the `async with`
block), or a 200 response carrying an "error" key (which the service turns
into a raised exception). -/

/-- Outcome of one remote call. -/
inductive RemoteOutcome (α : Type) where
  | success : α → RemoteOutcome α
  | httpFailure : String → RemoteOutcome α
  | errorPayload : String → RemoteOutcome α

/-- Result payload of a painting call. -/
structure PaintResult where
  painted : Img
  width : ℕ
  height : ℕ

/-- `SAM2Service.paint_mask`: both `except` arms log and re-raise, so any
remote failure is surfaced to the caller unchanged. -/
def service_paint_mask (remote : RemoteOutcome PaintResult) :
    Except String PaintResult :=
  match remote with
  | .success r => .ok r
  | .httpFailure e => .error e
  | .errorPayload e => .error e

/-- `SAM2Service.paint_multiple_masks`: any exception from the remote call
(transport failure or error payload) is caught and replaced by the result
of the local fallback `paint_multiple_masks_local`; `localResult` is that
fallback's value for the same image and request list. -/
def service_paint_multiple_masks (remote : RemoteOutcome PaintResult)
    (localResult : PaintResult) : Except String PaintResult :=
  match remote with
  | .success r => .ok r
  | .httpFailure _ => .ok localResult
  | .errorPayload _ => .ok localResult

/-! Local fallback compositor (`paint_multiple_masks_local` in `main.py`).
Masks here are grayscale grids (first channel of the decoded mask image);
a pixel is masked at value > 128, and each entry is one flat alpha blend
(no texture or edge passes). -/

/-- A decoded grayscale mask used by the local fallback. -/
structure GrayMask where
  h : ℕ
  w : ℕ
  g : ℕ → ℕ → ℕ

/-- One entry of the local fallback's `colored_masks` list, post-decoding
(`none` models an entry whose "mask" key is falsy, which is skipped). -/
structure LocalEntry where
  mask? : Option GrayMask
  color? : Option String
  opacity? : Option ℚ

/-- One channel of the local fallback blend at a pixel: with the binary
mask value `mn` (1 where the gray value exceeds 128, else 0), the output
is `p*(1 - mn*opacity) + overlay*mn*opacity` where the overlay carries the
target color on masked pixels and 0 elsewhere. -/
def localBlendChannel (masked : Bool) (colorC : ℕ) (opacity : ℚ) (p0 : ℕ) : ℚ :=
  let mn : ℚ := if masked then 1 else 0
  let overlay : ℚ := if masked then (colorC : ℚ) else 0
  (p0 : ℚ) * (1 - mn * opacity) + overlay * mn * opacity

/-- Loop body of `paint_multiple_masks_local` for one entry. -/
def localPaintStep (img : Img) (e : LocalEntry) : Img :=
  match e.mask? with
  | none => img
  | some gm =>
      let rgb := hex_to_rgb (e.color?.getD "#FF0000")
      let α := e.opacity?.getD (7/10)
      { h := img.h, w := img.w,
        pix := fun y x =>
          let masked := decide (gm.g y x > 128)
          let p := img.pix y x
          (toU8 (localBlendChannel masked rgb.1 α p.1),
           toU8 (localBlendChannel masked rgb.2.1 α p.2.1),
           toU8 (localBlendChannel masked rgb.2.2 α p.2.2)) }

/-- `paint_multiple_masks_local`: fold the flat alpha blend over the
entries, then report the painted image and its dimensions. -/
def paint_multiple_masks_local (img : Img) (entries : List LocalEntry) :
    PaintResult :=
  let painted := entries.foldl localPaintStep img
  { painted := painted, width := painted.w, height := painted.h }

/-! Mask codec (`SAM2Model._encode_mask` / `SAM2Model._decode_mask`).
Transport strings are embedded as character lists, bytes as naturals
below 256. Standard base64 is implemented exactly (Python
`base64.b64encode` / `b64decode` with default non-validating decode:
characters outside the alphabet are discarded, the filtered length must be
a multiple of 4, and padding ends the data). The lossless image
serialization (`PIL.Image.save(format="PNG")`) is modeled as an injective
tagged byte format opening with the PNG signature — the claims depend only
on losslessness and on `PIL.Image.open` rejecting a stream that does not
start with a known image signature. -/

/-- Transport strings. -/
abbrev Str := List Char

/-- The standard base64 alphabet. -/
def b64chars : List Char :=
  "ABCDEFGHIJKLMNOPQRSTUVWXYZabcdefghijklmnopqrstuvwxyz0123456789+/".toList

/-- Character for a 6-bit group. -/
def b64char (n : ℕ) : Char := b64chars.getD n 'A'

/-- 6-bit group of an alphabet character. -/
def b64index (c : Char) : ℕ := b64chars.indexOf c

/-- Characters retained by the non-validating decoder. -/
def b64keep (c : Char) : Bool := b64chars.contains c || c == '='

/-- `base64.b64encode`: 3 bytes become 4 characters; a final group of 1 or
2 bytes is padded with one or two padding characters. -/
def b64encode : List ℕ → Str
  | [] => []
  | [b1] => [b64char (b1 / 4), b64char (b1 % 4 * 16), '=', '=']
  | [b1, b2] =>
      [b64char (b1 / 4), b64char (b1 % 4 * 16 + b2 / 16),
       b64char (b2 % 16 * 4), '=']
  | b1 :: b2 :: b3 :: rest =>
      b64char (b1 / 4) :: b64char (b1 % 4 * 16 + b2 / 16) ::
      b64char (b2 % 16 * 4 + b3 / 64) :: b64char (b3 % 64) :: b64encode rest

/-- Decode the 6-bit groups of the data characters (padding already
removed): full quads give 3 bytes, a final pair or triple gives 1 or 2
bytes, a lone trailing character is invalid. -/
def decodeQuads : Str → Option (List ℕ)
  | [] => some []
  | [_] => none
  | [a, b] => some [b64index a * 4 + b64index b / 16]
  | [a, b, c] =>
      some [b64index a * 4 + b64index b / 16,
            b64index b % 16 * 16 + b64index c / 4]
  | a :: b :: c :: d :: rest =>
      (decodeQuads rest).map (fun t =>
        (b64index a * 4 + b64index b / 16) ::
        (b64index b % 16 * 16 + b64index c / 4) ::
        (b64index c % 4 * 64 + b64index d) :: t)

/-- `base64.b64decode` with default validation: discard characters outside
the alphabet, require the surviving length (padding included) to be a
multiple of 4, and decode the characters before the first padding char. -/
def b64decode (s : Str) : Option (List ℕ) :=
  if (s.filter b64keep).length % 4 = 0 then
    decodeQuads ((s.filter b64keep).takeWhile (fun c => c != '='))
  else none

/-- Decoded image content with its PIL mode. -/
inductive PILImage where
  | rgba : List (List (ℕ × ℕ × ℕ × ℕ)) → PILImage
  | gray : List (List ℕ) → PILImage

/-- The PNG file signature. -/
def pngMagic : List ℕ := [137, 80, 78, 71, 13, 10, 26, 10]

/-- A dimension as four big-endian bytes (as in a real PNG header). -/
def dimBytes (n : ℕ) : List ℕ :=
  [n / 16777216 % 256, n / 65536 % 256, n / 256 % 256, n % 256]

/-- Read a four-byte big-endian dimension. -/
def readDim (b : List ℕ) : ℕ :=
  b.getD 0 0 * 16777216 + b.getD 1 0 * 65536 + b.getD 2 0 * 256 + b.getD 3 0

/-- The four samples of one RGBA pixel. -/
def pix4 (p : ℕ × ℕ × ℕ × ℕ) : List ℕ := [p.1, p.2.1, p.2.2.1, p.2.2.2]

/-- Width of a grid (length of its first row). -/
def gridW {α : Type} (g : List (List α)) : ℕ := (g.headD []).length

/-- Concatenate rows. -/
def flattenRows {α : Type} : List (List α) → List α
  | [] => []
  | r :: rs => r ++ flattenRows rs

/-- Split a flat sample list into `h` rows of `w` samples. -/
def chunks {α : Type} (w : ℕ) : ℕ → List α → List (List α)
  | 0, _ => []
  | h + 1, flat => flat.take w :: chunks w h (flat.drop w)

/-- Group a row of samples into RGBA pixels, four samples each. -/
def groupPix : List ℕ → List (ℕ × ℕ × ℕ × ℕ)
  | r :: g :: b :: a :: rest => (r, g, b, a) :: groupPix rest
  | _ => []

/-- Serialize an image to bytes: signature, mode tag, two 4-byte
dimensions, then the row-major samples. -/
def serializeImage : PILImage → List ℕ
  | .rgba g =>
      pngMagic ++ 4 :: (dimBytes g.length ++ dimBytes (gridW g)
        ++ flattenRows (g.map (fun row => flattenRows (row.map pix4))))
  | .gray g =>
      pngMagic ++ 1 :: (dimBytes g.length ++ dimBytes (gridW g)
        ++ flattenRows g)

/-- `PIL.Image.open` on a serialized stream: check the signature, the mode
tag and the exact payload length, then rebuild the pixel grid; anything
malformed is rejected. -/
def parseImage (bytes : List ℕ) : Option PILImage :=
  if bytes.take 8 = pngMagic then
    match bytes.drop 8 with
    | [] => none
    | mode :: rest =>
        let h := readDim (rest.take 4)
        let w := readDim ((rest.drop 4).take 4)
        let flat := rest.drop 8
        if mode = 4 then
          (if flat.length = h * (w * 4) then
            some (.rgba ((chunks (w * 4) h flat).map groupPix))
          else none)
        else if mode = 1 then
          (if flat.length = h * w then some (.gray (chunks w h flat))
          else none)
        else none
  else none

/-- The RGBA rendering of a boolean mask built by `_encode_mask`: every
channel (red, green, blue, alpha) carries 255 where the mask is true and 0
where it is false. -/
def maskToRGBA (M : List (List Bool)) : List (List (ℕ × ℕ × ℕ × ℕ)) :=
  M.map (fun row => row.map (fun b =>
    ((if b then 255 else 0), (if b then 255 else 0),
     (if b then 255 else 0), (if b then 255 else 0))))

/-- `SAM2Model._encode_mask`: render the boolean grid as the white-on-
transparent RGBA bitmap, serialize it losslessly, and base64-encode. -/
def encode_mask (M : List (List Bool)) : Str :=
  b64encode (serializeImage (.rgba (maskToRGBA M)))

/-- PIL RGB(A)-to-grayscale conversion, ITU-R 601-2 fixed point:
`L = (R*19595 + G*38470 + B*7471 + 0x8000) >> 16`. -/
def luminance (r g b : ℕ) : ℕ :=
  (r * 19595 + g * 38470 + b * 7471 + 32768) / 65536

/-- `SAM2Model._decode_mask`: base64-decode (no data-URI handling), open
the image, convert RGBA to grayscale, and threshold at value > 0. -/
def decode_mask (s : Str) : Except String (List (List Bool)) :=
  match b64decode s with
  | none => .error "DecodeError"
  | some bytes =>
      match parseImage bytes with
      | none => .error "DecodeError"
      | some (.rgba g) =>
          .ok (g.map (fun row => row.map (fun p =>
            decide (luminance p.1 p.2.1 p.2.2.1 > 0))))
      | some (.gray g) =>
          .ok (g.map (fun row => row.map (fun v => decide (v > 0))))

/-! Image decoding (`SAM2Model._decode_image`) and size validation
(`SAM2Model._validate_image_size`). Every oracle-side operation decodes
its image through `_decode_image`, which downscales any image whose larger
dimension exceeds 2048. `resizeImgFn` is the model parameter for the
`cv2.resize(..., INTER_LANCZOS4)` pixel content; the output dimensions are
fixed exactly as cv2 guarantees. -/

variable (resizeImgFn : Img → ℕ → ℕ → ℕ → ℕ → ℕ × ℕ × ℕ)

/-- Python's `int(a * (b / c))` for nonnegative ints in float64: `b / c`
is the correctly rounded float64 quotient, the product with `a` (exact in
float64 for `a < 2^53`) is rounded again, and `int(...)` truncates. For a
2244-pixel-tall, 561-pixel-wide image this yields 511, not the exact
`561 * 2048 / 2244 = 512`. -/
def pyIntMulDiv (a b c : ℕ) : ℕ :=
  (⌊f64round (qmul (mkRat a 1) (f64round (mkRat b c)))⌋).toNat

/-- `SAM2Model._validate_image_size` with `max_size = 2048`: when the
larger dimension exceeds 2048, scale the larger axis to 2048 and the
other by `int(other * (2048 / larger))` computed in float64; otherwise
return the image unchanged. -/
def validate_image_size (img : Img) : Img :=
  if max img.h img.w > 2048 then
    (if img.h > img.w then
      { h := 2048, w := pyIntMulDiv img.w 2048 img.h,
        pix := resizeImgFn img 2048 (pyIntMulDiv img.w 2048 img.h) }
    else
      { h := pyIntMulDiv img.h 2048 img.w, w := 2048,
        pix := resizeImgFn img (pyIntMulDiv img.h 2048 img.w) 2048 })
  else img

/-- PIL `convert("RGB")`: RGBA drops alpha, grayscale replicates the
value into all three channels. -/
def pilToRGB : PILImage → Img
  | .rgba g =>
      { h := g.length, w := gridW g,
        pix := fun y x =>
          ((((g.getD y []).getD x (0, 0, 0, 0))).1,
           (((g.getD y []).getD x (0, 0, 0, 0))).2.1,
           (((g.getD y []).getD x (0, 0, 0, 0))).2.2.1) }
  | .gray g =>
      { h := g.length, w := gridW g,
        pix := fun y x =>
          ((g.getD y []).getD x 0, (g.getD y []).getD x 0,
           (g.getD y []).getD x 0) }

/-- Python `str.split(",")`. -/
def splitOnComma : Str → List Str
  | [] => [[]]
  | c :: rest =>
      if c = ',' then [] :: splitOnComma rest
      else
        match splitOnComma rest with
        | [] => [[c]]
        | h :: t => (c :: h) :: t

/-- The data-URI detector of `_decode_image`: `startswith("data:image")`. -/
def dataUriHead : Str := "data:image".toList

/-- Prefix handling of `_decode_image` only: when the string starts with
the data-URI head, keep the segment after the first comma
(`base64_image.split(",")[1]`); otherwise use the string as given. -/
def strip_data_uri (s : Str) : Str :=
  if s.take 10 = dataUriHead then (splitOnComma s).getD 1 [] else s

/-- `SAM2Model._decode_image`: strip a data-URI head when present,
base64-decode, open the image, convert to RGB, and validate/downscale the
size; undecodable input raises (DecodeError). -/
def decode_image (s : Str) : Except String Img :=
  match b64decode (strip_data_uri s) with
  | none => .error "DecodeError"
  | some bytes =>
      match parseImage bytes with
      | none => .error "DecodeError"
      | some pimg => .ok (validate_image_size resizeImgFn (pilToRGB pimg))

/-- `SAM2Model.paint_mask` from the decoded (not yet validated) image:
the image passes through size validation (as inside `_decode_image`), the
mask is fitted to the validated shape, painted, and the reported width and
height are those of the validated image. -/
def modal_paint_mask (img : Img) (mask : MaskG) (color : String)
    (opacity : ℚ) (texture : ℕ → ℕ → ℚ) : PaintResult :=
  { painted := paint_mask_on_image (validate_image_size resizeImgFn img)
      (fitMask resizeMaskFn mask (validate_image_size resizeImgFn img).h
        (validate_image_size resizeImgFn img).w)
      color opacity texture,
    width := (validate_image_size resizeImgFn img).w,
    height := (validate_image_size resizeImgFn img).h }

/-- `SAM2Model.paint_multiple_masks` from the decoded image: size
validation, then the painting loop; the reported width and height are
those of the validated image. -/
def modal_paint_multiple_masks (img : Img) (rs : List ColoredMaskReq) :
    PaintResult :=
  { painted := paint_multiple_masks resizeMaskFn
      (validate_image_size resizeImgFn img) rs,
    width := (validate_image_size resizeImgFn img).w,
    height := (validate_image_size resizeImgFn img).h }

/-! Session store (`main.py`): the `sessions` dict, the mask tables, the
`/generate-masks` wholesale table replacement, mask lookup, and the
background reaper. -/

/-- HTTP error kinds raised by the endpoints. -/
inductive ApiError where
  | notFound : ApiError
  | badRequest : ApiError
deriving DecidableEq

/-- A stored mask entry, the dict kept in `session["stored_masks"]`. -/
structure StoredMask where
  mask : Str
  score? : Option ℚ
  bbox? : Option (List ℚ)
  area? : Option ℕ
  stability_score? : Option ℚ

/-- A session record (`sessions[session_id]`); `created_at?` is optional
because the reaper checks for the key's presence. -/
structure Session where
  filename : String
  width : ℕ
  height : ℕ
  created_at? : Option ℤ
  stored_masks : ℕ → Option StoredMask
  image_data : Str

/-- One raw mask dict produced by the SAM2 automatic mask generator. -/
structure RawMaskInfo where
  segmentation? : Option (List (List Bool))
  area? : Option ℕ
  predicted_iou? : Option ℚ
  bbox? : Option (List ℚ)
  stability_score? : Option ℚ

/-- One entry of the `masks` list returned by `generate_all_masks`. -/
structure MaskResponse where
  id : ℕ
  mask : Str
  score : ℚ
  bbox? : Option (List ℚ)
  area : ℕ
  stability_score : ℚ

/-- The processing loop of `SAM2Model.generate_all_masks`: skip raw masks
without a segmentation, skip areas below 10, encode the rest, and give
each kept mask the id `len(masks)` — its position in the output list. -/
def processMasks_go (acc : List MaskResponse) :
    List RawMaskInfo → List MaskResponse
  | [] => acc
  | r :: rs =>
      match r.segmentation? with
      | none => processMasks_go acc rs
      | some seg =>
          if r.area?.getD 0 < 10 then processMasks_go acc rs
          else
            processMasks_go (acc ++ [{
              id := acc.length,
              mask := encode_mask seg,
              score := r.predicted_iou?.getD 0,
              bbox? := r.bbox?,
              area := r.area?.getD 0,
              stability_score := r.stability_score?.getD 0 }]) rs

/-- `generate_all_masks` mask processing, started from the empty list. -/
def processMasks (raws : List RawMaskInfo) : List MaskResponse :=
  processMasks_go [] raws

/-- The stored dict built for one response entry in the `/generate-masks`
endpoint. -/
def toStored (mi : MaskResponse) : StoredMask :=
  { mask := mi.mask, score? := some mi.score, bbox? := mi.bbox?,
    area? := some mi.area, stability_score? := some mi.stability_score }

/-- The table-building loop of the `/generate-masks` endpoint: a fresh
dict filled with `stored_masks[mask_info["id"]] = ...` in input order. -/
def buildStoredTable (masks : List MaskResponse) : ℕ → Option StoredMask :=
  masks.foldl
    (fun t mi => fun k => if k = mi.id then some (toStored mi) else t k)
    (fun _ => none)

/-- `replaceMasks`: the endpoint swaps the session's entire mask table for
the freshly built one (`sessions[session_id]["stored_masks"] = ...`). -/
def replaceMasks (s : Session) (masks : List MaskResponse) : Session :=
  { s with stored_masks := buildStoredTable masks }

/-- `getMask`: the endpoint lookup — `mask_id not in stored_masks` is a
404 NotFound, otherwise the stored mask. -/
def getStoredMask (s : Session) (k : ℕ) : Except ApiError StoredMask :=
  match s.stored_masks k with
  | none => .error .notFound
  | some m => .ok m

/-- One entry of the `/paint-multiple-masks` request's `colored_masks`. -/
structure PMEntry where
  mask_id? : Option ℕ
  mask? : Option Str
  color? : Option String
  opacity? : Option ℚ

/-- Python truthiness of the optional inline mask string (an empty string
is falsy). -/
def strTruthy : Option Str → Bool
  | none => false
  | some t => decide (t ≠ [])

/-- The processed dict handed to the compositor for one entry. -/
structure ProcessedMask where
  mask : Str
  color : String
  opacity : ℚ

/-- Entry resolution in the `/paint-multiple-masks` endpoint
(`if mask_data: ... elif mask_id and mask_id in stored_masks: ... else
400`): a truthy inline mask wins; otherwise the id must be non-None,
non-zero (Python truthiness) and present in the table; anything else is a
400 BadRequest. -/
def resolveEntry (stored : ℕ → Option StoredMask) (e : PMEntry) :
    Except ApiError ProcessedMask :=
  if strTruthy e.mask? then
    .ok { mask := e.mask?.getD [], color := e.color?.getD "#FF0000",
          opacity := e.opacity?.getD (7/10) }
  else
    match e.mask_id? with
    | none => .error .badRequest
    | some k =>
        if k = 0 then .error .badRequest
        else
          match stored k with
          | none => .error .badRequest
          | some m =>
              .ok { mask := m.mask, color := e.color?.getD "#FF0000",
                    opacity := e.opacity?.getD (7/10) }

/-- The preparation loop over all entries: the first failing entry aborts
the whole request with its error. -/
def prepareColoredMasks (stored : ℕ → Option StoredMask) :
    List PMEntry → Except ApiError (List ProcessedMask)
  | [] => .ok []
  | e :: es =>
      match resolveEntry stored e with
      | .error err => .error err
      | .ok pm =>
          match prepareColoredMasks stored es with
          | .error err => .error err
          | .ok pms => .ok (pm :: pms)

/-- Mask resolution of the single `/paint-mask` endpoint, for contrast:
`mask_id is not None` (id 0 included) looks the id up and yields a 404
NotFound when absent; otherwise a truthy inline mask is used; otherwise a
400 BadRequest. -/
def resolveSingleMask (stored : ℕ → Option StoredMask)
    (mask_id? : Option ℕ) (mask? : Option Str) : Except ApiError Str :=
  match mask_id? with
  | some k =>
      (match stored k with
       | none => .error .notFound
       | some m => .ok m.mask)
  | none =>
      if strTruthy mask? then .ok (mask?.getD []) else .error .badRequest

/-- Whether a session has outlived the TTL: only sessions carrying a
creation timestamp are considered; age is measured from creation time
(seconds), strictly beyond one hour. -/
def session_expired (now : ℤ) (s : Session) : Bool :=
  match s.created_at? with
  | none => false
  | some t => decide (now - t > 3600)

/-- First phase of `cleanup_old_sessions`: collect the ids of expired
sessions. -/
def sessions_to_remove (now : ℤ) (tbl : List (String × Session)) :
    List String :=
  (tbl.filter (fun e => session_expired now e.2)).map Prod.fst

/-- Second phase of `cleanup_old_sessions`: delete every collected id
from the table. -/
def cleanup_old_sessions (now : ℤ) (tbl : List (String × Session)) :
    List (String × Session) :=
  tbl.filter (fun e => decide (e.1 ∉ sessions_to_remove now tbl))

/-! Concrete instances used by witnesses and counterexamples. -/

/-- A 1x1 all-true mask. -/
def mask11 : MaskG := { h := 1, w := 1, m := fun _ _ => true }

/-- A 20x20 all-true mask (contains the point (10,10)). -/
def mask20 : MaskG := { h := 20, w := 20, m := fun _ _ => true }

/-- A candidate containing the query point but carrying no score. -/
def candNoScore : CandMask := { mask? := some mask11, score? := none }

/-- Candidate with score 0.3 containing (10,10). -/
def candA : CandMask := { mask? := some mask20, score? := some (3/10) }

/-- Candidate with score 0.9 containing (10,10). -/
def candB : CandMask := { mask? := some mask20, score? := some (9/10) }

/-- Candidate with score 0.5 containing (10,10). -/
def candC : CandMask := { mask? := some mask20, score? := some (5/10) }

/-- The data-URI head used by concrete prefixed transport strings. -/
def dataUriPng : Str := "data:image/png;base64,".toList

/-- A stored mask with a one-character transport string. -/
def sm0 : StoredMask :=
  { mask := ['a'], score? := none, bbox? := none, area? := none,
    stability_score? := none }

/-- A stored-mask table containing exactly ids 0 and 1. -/
def stored01 : ℕ → Option StoredMask :=
  fun k => if k ≤ 1 then some sm0 else none

/-- A multi-paint entry referencing stored id 0. -/
def entryId0 : PMEntry :=
  { mask_id? := some 0, mask? := none, color? := none, opacity? := none }

/-- A multi-paint entry referencing stored id 1. -/
def entryId1 : PMEntry :=
  { mask_id? := some 1, mask? := none, color? := none, opacity? := none }

/-- A multi-paint entry referencing the absent stored id 5. -/
def entryId5 : PMEntry :=
  { mask_id? := some 5, mask? := none, color? := none, opacity? := none }

/-- A session with an empty mask table, created at time 0. -/
def session0 : Session :=
  { filename := "img.png", width := 4, height := 4, created_at? := some 0,
    stored_masks := fun _ => none, image_data := [] }

/-- A session created at time 8000. -/
def sessionLate : Session :=
  { filename := "late.png", width := 4, height := 4,
    created_at? := some 8000, stored_masks := fun _ => none,
    image_data := [] }

/-- A two-session table for the reaper witness. -/
def tbl2 : List (String × Session) := [("a", session0), ("b", sessionLate)]

/-- Two raw generator masks, both kept by the processing loop. -/
def raws0 : List RawMaskInfo :=
  [{ segmentation? := some [[true]], area? := some 100,
     predicted_iou? := some (1/2), bbox? := none,
     stability_score? := some (3/4) },
   { segmentation? := some [[false]], area? := some 50,
     predicted_iou? := none, bbox? := none, stability_score? := none }]

/-- The first processed response entry for `raws0`. -/
def mi0 : MaskResponse :=
  { id := 0, mask := encode_mask [[true]], score := 1/2, bbox? := none,
    area := 100, stability_score := 3/4 }

/-- A 4096x1024 image of black pixels. -/
def img4096 : Img := { h := 4096, w := 1024, pix := fun _ _ => (0, 0, 0) }

/-- A 3x3 mask whose only true pixel is the center: its blurred value at
the center is 1/4. -/
def mask3 : MaskG :=
  { h := 3, w := 3, m := fun y x => decide (y = 1) && decide (x = 1) }

/-- A 3x3 image with every channel value 13. -/
def img13 : Img := { h := 3, w := 3, pix := fun _ _ => (13, 13, 13) }

/-- A trivial concrete image-resize model parameter. -/
def rzImg0 : Img → ℕ → ℕ → ℕ → ℕ → ℕ × ℕ × ℕ := fun _ _ _ _ _ => (0, 0, 0)

/-- A trivial concrete mask-resize model parameter. -/
def rzMask0 : MaskG → ℕ → ℕ → ℕ → ℕ → Bool := fun _ _ _ _ _ => false

/-! Helper lemmas -/

/-- Loop invariant for the selection fold of `get_mask_at_point` after
processing the candidates in `processed`: the running best score is
nonnegative and dominates every containing candidate seen so far, and the
recorded best mask (when present) is a containing candidate whose score
equals the (positive) best score, every candidate before it scoring
strictly lower. -/
def SelInv (x y : ℤ) (processed : List CandMask)
    (s : Option CandMask × ℚ) : Prop :=
  0 ≤ s.2
  ∧ (∀ c ∈ processed, candHit x y c = true → candScore c ≤ s.2)
  ∧ (s.1 = none → s.2 = 0)
  ∧ (∀ c, s.1 = some c →
       candHit x y c = true ∧ candScore c = s.2 ∧ 0 < s.2
       ∧ ∃ l₁ l₂, processed = l₁ ++ c :: l₂
           ∧ ∀ cc ∈ l₁, candHit x y cc = true → candScore cc < s.2)

/-- The ids of a processed mask list equal positions — the invariant that
`generate_all_masks` maintains by assigning `len(masks)` as each id. -/
def IdsOK (l : List MaskResponse) : Prop :=
  ∀ i mi, l.get? i = some mi → mi.id = i

theorem toU8_natCast (n : ℕ) : toU8 (n : ℚ) = n := by
  simp [toU8]

theorem blendChannel_opacity_zero (mask : MaskG) (c : ℕ) (tex : ℕ → ℕ → ℚ)
    (ha : Bool) (y x p0 : ℕ) :
    blendChannel mask c 0 tex ha y x p0 = (p0 : ℚ) := by
  unfold blendChannel
  have h3 : ¬((0 : ℚ) > 3/10) := by norm_num
  by_cases hm : mask.m y x <;> cases ha <;> simp [hm, h3] <;> ring

/-! Bridge lemmas. -/

theorem qmul_eq (a b : ℚ) : qmul a b = a * b := by
  unfold qmul
  rw [Rat.mkRat_eq_div]
  push_cast
  rw [← div_mul_div_comm, Rat.num_div_den, Rat.num_div_den]

theorem qadd_eq (a b : ℚ) : qadd a b = a + b := by
  have ha : ((a.den : ℚ)) ≠ 0 := Nat.cast_ne_zero.mpr a.den_nz
  have hb : ((b.den : ℚ)) ≠ 0 := Nat.cast_ne_zero.mpr b.den_nz
  conv_rhs => rw [← Rat.num_div_den a, ← Rat.num_div_den b]
  unfold qadd
  rw [Rat.mkRat_eq_div]
  push_cast
  field_simp

theorem qsub_eq (a b : ℚ) : qsub a b = a - b := by
  have ha : ((a.den : ℚ)) ≠ 0 := Nat.cast_ne_zero.mpr a.den_nz
  have hb : ((b.den : ℚ)) ≠ 0 := Nat.cast_ne_zero.mpr b.den_nz
  conv_rhs => rw [← Rat.num_div_den a, ← Rat.num_div_den b]
  unfold qsub
  rw [Rat.mkRat_eq_div]
  push_cast
  field_simp
  ring

theorem mkRat_int (n : ℤ) : (mkRat n 1 : ℚ) = (n : ℚ) := by
  rw [Rat.mkRat_eq_div]
  norm_num

theorem mkRat_half : (mkRat 1 2 : ℚ) = 1 / 2 := by
  rw [Rat.mkRat_eq_div]
  norm_num

theorem mkRat_one : (mkRat 1 1 : ℚ) = 1 := by
  rw [Rat.mkRat_eq_div]
  norm_num

theorem mkRat_two : (mkRat 2 1 : ℚ) = 2 := by
  rw [Rat.mkRat_eq_div]
  norm_num

theorem pow2_eq (k : ℤ) : pow2 k = (2 : ℚ) ^ k := by
  unfold pow2
  by_cases hk : 0 ≤ k
  · rw [if_pos hk, Rat.mkRat_eq_div]
    push_cast
    rw [div_one, ← zpow_natCast (2 : ℚ) k.toNat, Int.toNat_of_nonneg hk]
  · rw [if_neg hk, Rat.mkRat_eq_div]
    push_cast
    rw [one_div, ← zpow_natCast (2 : ℚ) (-k).toNat,
      Int.toNat_of_nonneg (by omega : (0 : ℤ) ≤ -k), ← zpow_neg, neg_neg]

/-! Exponent-search bounds. -/

theorem ilogUp_ge : ∀ (fuel : ℕ) (q : ℚ) (e : ℤ), e ≤ ilogUp fuel q e := by
  intro fuel
  induction fuel with
  | zero => intro q e; unfold ilogUp; omega
  | succ n ih =>
    intro q e
    unfold ilogUp
    by_cases h : q < mkRat 2 1
    · rw [if_pos h]
    · rw [if_neg h]
      have := ih (qmul q (mkRat 1 2)) (e + 1)
      omega

theorem ilogDown_ge :
    ∀ (fuel : ℕ) (q : ℚ) (e : ℤ), e - (fuel : ℤ) ≤ ilogDown fuel q e := by
  intro fuel
  induction fuel with
  | zero => intro q e; unfold ilogDown; omega
  | succ n ih =>
    intro q e
    unfold ilogDown
    by_cases h : mkRat 1 1 ≤ q
    · rw [if_pos h]; omega
    · rw [if_neg h]
      have := ih (qmul q (mkRat 2 1)) (e - 1)
      push_cast
      push_cast at this
      omega

theorem ilogUp_le :
    ∀ (fuel : ℕ) (q : ℚ) (e : ℤ), 1 ≤ q →
      (2 : ℚ) ^ (ilogUp fuel q e - e) ≤ q := by
  intro fuel
  induction fuel with
  | zero =>
    intro q e h1
    unfold ilogUp
    simpa using h1
  | succ n ih =>
    intro q e h1
    unfold ilogUp
    by_cases h : q < mkRat 2 1
    · rw [if_pos h]
      simpa using h1
    · rw [if_neg h]
      rw [mkRat_two] at h
      push_neg at h
      have h1' : 1 ≤ qmul q (mkRat 1 2) := by
        rw [qmul_eq, mkRat_half]
        linarith
      have hrec := ih (qmul q (mkRat 1 2)) (e + 1) h1'
      set R := ilogUp n (qmul q (mkRat 1 2)) (e + 1) with hR
      rw [qmul_eq, mkRat_half] at hrec
      have h2 : (2 : ℚ) ^ (R - e) = 2 ^ (R - (e + 1)) * 2 := by
        rw [← zpow_add_one₀ (by norm_num : (2 : ℚ) ≠ 0)]
        congr 1
        omega
      rw [h2]
      linarith

theorem ilogDown_le :
    ∀ (fuel : ℕ) (q : ℚ) (e : ℤ), 0 < q → (2 : ℚ) ^ (-(fuel : ℤ)) ≤ q →
      (2 : ℚ) ^ (ilogDown fuel q e - e) ≤ q := by
  intro fuel
  induction fuel with
  | zero =>
    intro q e _ hlo
    unfold ilogDown
    simpa using hlo
  | succ n ih =>
    intro q e h0 hlo
    unfold ilogDown
    by_cases h : mkRat 1 1 ≤ q
    · rw [if_pos h]
      rw [mkRat_one] at h
      simpa using h
    · rw [if_neg h]
      have h0' : 0 < qmul q (mkRat 2 1) := by
        rw [qmul_eq, mkRat_two]
        linarith
      have hstep : (2 : ℚ) ^ (-(n : ℤ)) = 2 ^ (-((n : ℤ) + 1)) * 2 := by
        rw [← zpow_add_one₀ (by norm_num : (2 : ℚ) ≠ 0)]
        congr 1
        omega
      have hlo' : (2 : ℚ) ^ (-(n : ℤ)) ≤ qmul q (mkRat 2 1) := by
        rw [qmul_eq, mkRat_two, hstep]
        have : (2 : ℚ) ^ (-((n : ℤ) + 1)) ≤ q := by
          have hcast : -((n : ℤ) + 1) = -(((n + 1 : ℕ)) : ℤ) := by push_cast; ring
          rw [hcast]
          exact hlo
        linarith
      have hrec := ih (qmul q (mkRat 2 1)) (e - 1) h0' hlo'
      set R := ilogDown n (qmul q (mkRat 2 1)) (e - 1) with hR
      rw [qmul_eq, mkRat_two] at hrec
      have h2 : (2 : ℚ) ^ (R - (e - 1)) = 2 ^ (R - e) * 2 := by
        rw [← zpow_add_one₀ (by norm_num : (2 : ℚ) ≠ 0)]
        congr 1
        omega
      rw [h2] at hrec
      linarith

theorem ilog2q_le (q : ℚ) (h0 : 0 < q) (hlo : (2 : ℚ) ^ (-(300 : ℤ)) ≤ q) :
    (2 : ℚ) ^ (ilog2q q) ≤ q := by
  unfold ilog2q
  by_cases h : mkRat 1 1 ≤ q
  · rw [if_pos h]
    rw [mkRat_one] at h
    simpa using ilogUp_le 300 q 0 h
  · rw [if_neg h]
    have hlo' : (2 : ℚ) ^ (-((300 : ℕ) : ℤ)) ≤ q := by
      have hcast : -(((300 : ℕ)) : ℤ) = -(300 : ℤ) := by norm_num
      rw [hcast]
      exact hlo
    simpa using ilogDown_le 300 q 0 h0 hlo'

theorem ilog2q_ge (q : ℚ) : -300 ≤ ilog2q q := by
  unfold ilog2q
  by_cases h : mkRat 1 1 ≤ q
  · rw [if_pos h]
    have := ilogUp_ge 300 q 0
    omega
  · rw [if_neg h]
    have := ilogDown_ge 300 q 0
    omega

/-! Round-to-nearest bounds. -/

theorem roundMant_le (s : ℚ) :
    ((roundMant ⌊s⌋ (qsub s (mkRat ⌊s⌋ 1)) : ℤ) : ℚ) ≤ s + 1 / 2 := by
  have hfr : qsub s (mkRat ⌊s⌋ 1) = s - (⌊s⌋ : ℚ) := by
    rw [qsub_eq, mkRat_int]
  have h1 : ((⌊s⌋ : ℤ) : ℚ) ≤ s := Int.floor_le s
  unfold roundMant
  rw [hfr, mkRat_half]
  by_cases hc1 : s - (⌊s⌋ : ℚ) < 1 / 2
  · rw [if_pos hc1]
    linarith
  · rw [if_neg hc1]
    push_neg at hc1
    by_cases hc2 : (1 : ℚ) / 2 < s - (⌊s⌋ : ℚ)
    · rw [if_pos hc2]
      push_cast
      linarith
    · rw [if_neg hc2]
      have heq : s - ((⌊s⌋ : ℤ) : ℚ) = 1 / 2 := le_antisymm (not_lt.mp hc2) hc1
      by_cases hc3 : ⌊s⌋ % 2 = 0
      · rw [if_pos hc3]
        linarith
      · rw [if_neg hc3]
        push_cast
        linarith

theorem roundMant_ge (n : ℤ) (frac : ℚ) : n ≤ roundMant n frac := by
  unfold roundMant
  split_ifs <;> omega

theorem froundPos_le (b : ℕ) (q : ℚ) (h0 : 0 < q)
    (hlo : (2 : ℚ) ^ (-(300 : ℤ)) ≤ q) :
    froundPos b q ≤ q * (1 + (2 : ℚ) ^ (-(b : ℤ))) := by
  have he : (2 : ℚ) ^ (ilog2q q) ≤ q := ilog2q_le q h0 hlo
  unfold froundPos
  set e := ilog2q q with hedef
  set s := qmul q (pow2 ((b : ℤ) - e)) with hsdef
  set m := roundMant ⌊s⌋ (qsub s (mkRat ⌊s⌋ 1)) with hmdef
  rw [qmul_eq, mkRat_int, pow2_eq]
  have hsval : s = q * 2 ^ ((b : ℤ) - e) := by
    rw [hsdef, qmul_eq, pow2_eq]
  have hm : (m : ℚ) ≤ s + 1 / 2 := by
    rw [hmdef]
    exact roundMant_le s
  have hp1 : (0 : ℚ) < 2 ^ (e - (b : ℤ)) := zpow_pos (by norm_num) _
  have step1 : (m : ℚ) * 2 ^ (e - (b : ℤ)) ≤ (s + 1 / 2) * 2 ^ (e - (b : ℤ)) :=
    mul_le_mul_of_nonneg_right hm (le_of_lt hp1)
  have hcancel : (2 : ℚ) ^ ((b : ℤ) - e) * 2 ^ (e - (b : ℤ)) = 1 := by
    rw [← zpow_add₀ (by norm_num : (2 : ℚ) ≠ 0)]
    norm_num
  have hsr : (s + 1 / 2) * 2 ^ (e - (b : ℤ))
      = q * ((2 : ℚ) ^ ((b : ℤ) - e) * 2 ^ (e - (b : ℤ)))
        + (1 / 2) * 2 ^ (e - (b : ℤ)) := by
    rw [hsval]
    ring
  rw [hcancel, mul_one] at hsr
  have hhalf : (1 / 2 : ℚ) * 2 ^ (e - (b : ℤ)) = 2 ^ (e - (b : ℤ) - 1) := by
    rw [zpow_sub_one₀ (by norm_num : (2 : ℚ) ≠ 0)]
    ring
  have hkey : (2 : ℚ) ^ (e - (b : ℤ) - 1) ≤ q * 2 ^ (-(b : ℤ)) := by
    have h1 : (2 : ℚ) ^ (e - (b : ℤ) - 1) = 2 ^ e * 2 ^ (-(b : ℤ) - 1) := by
      rw [← zpow_add₀ (by norm_num : (2 : ℚ) ≠ 0)]
      congr 1
      omega
    have h2 : (2 : ℚ) ^ (-(b : ℤ) - 1) ≤ 2 ^ (-(b : ℤ)) :=
      zpow_le_zpow_right₀ (by norm_num) (by omega)
    have h3 : (0 : ℚ) < 2 ^ (-(b : ℤ) - 1) := zpow_pos (by norm_num) _
    calc (2 : ℚ) ^ (e - (b : ℤ) - 1) = 2 ^ e * 2 ^ (-(b : ℤ) - 1) := h1
      _ ≤ q * 2 ^ (-(b : ℤ) - 1) :=
          mul_le_mul_of_nonneg_right he (le_of_lt h3)
      _ ≤ q * 2 ^ (-(b : ℤ)) :=
          mul_le_mul_of_nonneg_left h2 (le_of_lt h0)
  have hfin : q * (1 + (2 : ℚ) ^ (-(b : ℤ))) = q + q * 2 ^ (-(b : ℤ)) := by
    ring
  rw [hfin]
  calc (m : ℚ) * 2 ^ (e - (b : ℤ))
      ≤ (s + 1 / 2) * 2 ^ (e - (b : ℤ)) := step1
    _ = q + (1 / 2) * 2 ^ (e - (b : ℤ)) := hsr
    _ = q + 2 ^ (e - (b : ℤ) - 1) := by rw [hhalf]
    _ ≤ q + q * 2 ^ (-(b : ℤ)) := by linarith [hkey]

theorem froundPos_ge (b : ℕ) (q : ℚ) (h0 : 0 < q)
    (hlo : (2 : ℚ) ^ (-(300 : ℤ)) ≤ q) :
    (2 : ℚ) ^ (ilog2q q) ≤ froundPos b q := by
  have he : (2 : ℚ) ^ (ilog2q q) ≤ q := ilog2q_le q h0 hlo
  unfold froundPos
  set e := ilog2q q with hedef
  set s := qmul q (pow2 ((b : ℤ) - e)) with hsdef
  set m := roundMant ⌊s⌋ (qsub s (mkRat ⌊s⌋ 1)) with hmdef
  rw [qmul_eq, mkRat_int, pow2_eq]
  have hsval : s = q * 2 ^ ((b : ℤ) - e) := by
    rw [hsdef, qmul_eq, pow2_eq]
  have hbe : (0 : ℚ) < 2 ^ ((b : ℤ) - e) := zpow_pos (by norm_num) _
  have hs_ge : (2 : ℚ) ^ ((b : ℤ)) ≤ s := by
    rw [hsval]
    calc (2 : ℚ) ^ ((b : ℤ)) = 2 ^ e * 2 ^ ((b : ℤ) - e) := by
          rw [← zpow_add₀ (by norm_num : (2 : ℚ) ≠ 0)]
          congr 1
          omega
      _ ≤ q * 2 ^ ((b : ℤ) - e) :=
          mul_le_mul_of_nonneg_right he (le_of_lt hbe)
  have hn_ge : (2 : ℤ) ^ b ≤ ⌊s⌋ := by
    apply Int.le_floor.mpr
    push_cast
    rw [← zpow_natCast (2 : ℚ) b]
    exact hs_ge
  have hm_ge : (2 : ℤ) ^ b ≤ m := le_trans hn_ge (by rw [hmdef]; exact roundMant_ge _ _)
  have hmq : (2 : ℚ) ^ ((b : ℤ)) ≤ (m : ℚ) := by
    rw [zpow_natCast (2 : ℚ) b]
    exact_mod_cast hm_ge
  have heb : (0 : ℚ) < 2 ^ (e - (b : ℤ)) := zpow_pos (by norm_num) _
  calc (2 : ℚ) ^ e = 2 ^ ((b : ℤ)) * 2 ^ (e - (b : ℤ)) := by
        rw [← zpow_add₀ (by norm_num : (2 : ℚ) ≠ 0)]
        congr 1
        omega
    _ ≤ (m : ℚ) * 2 ^ (e - (b : ℤ)) :=
        mul_le_mul_of_nonneg_right hmq (le_of_lt heb)

theorem froundB_pos_eq (b : ℕ) (q : ℚ) (h0 : 0 < q) :
    froundB b q = froundPos b q := by
  unfold froundB
  rw [if_neg (ne_of_gt h0), if_neg (not_lt.mpr (le_of_lt h0))]

theorem froundB_zero (b : ℕ) : froundB b 0 = 0 := by
  unfold froundB
  rw [if_pos rfl]

theorem froundB_le (b : ℕ) (q : ℚ) (h0 : 0 < q)
    (hlo : (2 : ℚ) ^ (-(300 : ℤ)) ≤ q) :
    froundB b q ≤ q * (1 + (2 : ℚ) ^ (-(b : ℤ))) := by
  rw [froundB_pos_eq b q h0]
  exact froundPos_le b q h0 hlo

theorem froundB_ge_pow (b : ℕ) (q : ℚ) (h0 : 0 < q)
    (hlo : (2 : ℚ) ^ (-(300 : ℤ)) ≤ q) :
    (2 : ℚ) ^ (-(300 : ℤ)) ≤ froundB b q := by
  rw [froundB_pos_eq b q h0]
  calc (2 : ℚ) ^ (-(300 : ℤ)) ≤ (2 : ℚ) ^ (ilog2q q) :=
        zpow_le_zpow_right₀ (by norm_num) (ilog2q_ge q)
    _ ≤ froundPos b q := froundPos_ge b q h0 hlo

theorem froundB_pos (b : ℕ) (q : ℚ) (h0 : 0 < q)
    (hlo : (2 : ℚ) ^ (-(300 : ℤ)) ≤ q) :
    0 < froundB b q :=
  lt_of_lt_of_le (zpow_pos (by norm_num) _) (froundB_ge_pow b q h0 hlo)

theorem pyIntMulDiv_le (a c : ℕ) (hc : 0 < c) (hac : a ≤ c)
    (hcs : c < 2 ^ 53) : pyIntMulDiv a 2048 c ≤ 2048 := by
  unfold pyIntMulDiv f64round
  simp only [Nat.cast_ofNat]
  set r := froundB 52 (mkRat 2048 c) with hrdef
  have hrc : (mkRat 2048 c : ℚ) = 2048 / (c : ℚ) := by
    rw [Rat.mkRat_eq_div]
    norm_num
  have hcpos : (0 : ℚ) < (c : ℚ) := by exact_mod_cast hc
  have hq0 : (0 : ℚ) < mkRat 2048 c := by
    rw [hrc]
    positivity
  have hcle : (c : ℚ) ≤ 2 ^ 53 := by exact_mod_cast hcs.le
  have hqlo : (2 : ℚ) ^ (-(300 : ℤ)) ≤ mkRat 2048 c := by
    rw [hrc]
    have h1 : (2048 : ℚ) / 2 ^ 53 ≤ 2048 / (c : ℚ) :=
      div_le_div_of_nonneg_left (by norm_num) hcpos hcle
    have h2 : (2 : ℚ) ^ (-(300 : ℤ)) ≤ 2048 / 2 ^ 53 := by norm_num
    linarith
  have hr_le : r ≤ (mkRat 2048 c : ℚ) * (1 + (2 : ℚ) ^ (-(52 : ℤ))) := by
    rw [hrdef]
    have h := froundB_le 52 (mkRat 2048 c) hq0 hqlo
    have hcast : -((52 : ℕ) : ℤ) = -(52 : ℤ) := by norm_num
    rw [hcast] at h
    exact h
  have hr_lo : (2 : ℚ) ^ (-(300 : ℤ)) ≤ r := by
    rw [hrdef]
    exact froundB_ge_pow 52 (mkRat 2048 c) hq0 hqlo
  have hr_pos : 0 < r := lt_of_lt_of_le (zpow_pos (by norm_num) _) hr_lo
  rcases Nat.eq_zero_or_pos a with ha0 | hapos
  · subst ha0
    have hz : qmul (mkRat (0 : ℕ) 1) r = 0 := by
      rw [qmul_eq, mkRat_int]
      push_cast
      ring
    rw [hz, froundB_zero]
    norm_num
  · have hprod_val : qmul (mkRat a 1) r = (a : ℚ) * r := by
      rw [qmul_eq, mkRat_int]
      push_cast
      ring
    rw [hprod_val]
    have hapos' : (0 : ℚ) < (a : ℚ) := by exact_mod_cast hapos
    have ha1 : (1 : ℚ) ≤ (a : ℚ) := by exact_mod_cast hapos
    have hprod_pos : 0 < (a : ℚ) * r := mul_pos hapos' hr_pos
    have hprod_lo : (2 : ℚ) ^ (-(300 : ℤ)) ≤ (a : ℚ) * r := by
      have : r ≤ (a : ℚ) * r := le_mul_of_one_le_left (le_of_lt hr_pos) ha1
      linarith
    have haq : ((a : ℕ) : ℚ) ≤ ((c : ℕ) : ℚ) := by exact_mod_cast hac
    have heps : (0 : ℚ) < 1 + (2 : ℚ) ^ (-(52 : ℤ)) := by positivity
    have hprod_hi : (a : ℚ) * r ≤ 2048 * (1 + (2 : ℚ) ^ (-(52 : ℤ))) := by
      have h1 : (a : ℚ) * r ≤ (c : ℚ) * r :=
        mul_le_mul_of_nonneg_right haq (le_of_lt hr_pos)
      have h2 : (c : ℚ) * r
          ≤ (c : ℚ) * ((mkRat 2048 c : ℚ) * (1 + (2 : ℚ) ^ (-(52 : ℤ)))) :=
        mul_le_mul_of_nonneg_left hr_le (le_of_lt hcpos)
      have h3 : (c : ℚ) * ((mkRat 2048 c : ℚ) * (1 + (2 : ℚ) ^ (-(52 : ℤ))))
          = 2048 * (1 + (2 : ℚ) ^ (-(52 : ℤ))) := by
        rw [hrc]
        field_simp
        ring
      linarith
    have hfl : froundB 52 ((a : ℚ) * r)
        ≤ ((a : ℚ) * r) * (1 + (2 : ℚ) ^ (-(52 : ℤ))) := by
      have := froundB_le 52 ((a : ℚ) * r) hprod_pos hprod_lo
      have hcast : -((52 : ℕ) : ℤ) = -(52 : ℤ) := by norm_num
      rw [hcast] at this
      exact this
    have hchain : froundB 52 ((a : ℚ) * r)
        ≤ 2048 * ((1 + (2 : ℚ) ^ (-(52 : ℤ))) * (1 + (2 : ℚ) ^ (-(52 : ℤ)))) := by
      have h4 : ((a : ℚ) * r) * (1 + (2 : ℚ) ^ (-(52 : ℤ)))
          ≤ (2048 * (1 + (2 : ℚ) ^ (-(52 : ℤ)))) * (1 + (2 : ℚ) ^ (-(52 : ℤ))) :=
        mul_le_mul_of_nonneg_right hprod_hi (le_of_lt heps)
      calc froundB 52 ((a : ℚ) * r)
          ≤ ((a : ℚ) * r) * (1 + (2 : ℚ) ^ (-(52 : ℤ))) := hfl
        _ ≤ (2048 * (1 + (2 : ℚ) ^ (-(52 : ℤ)))) * (1 + (2 : ℚ) ^ (-(52 : ℤ))) := h4
        _ = 2048 * ((1 + (2 : ℚ) ^ (-(52 : ℤ))) * (1 + (2 : ℚ) ^ (-(52 : ℤ)))) := by
            ring
    have hnum : 2048 * ((1 + (2 : ℚ) ^ (-(52 : ℤ))) * (1 + (2 : ℚ) ^ (-(52 : ℤ))))
        < 2049 := by norm_num
    have hfloor : ⌊froundB 52 ((a : ℚ) * r)⌋ < 2049 := by
      apply Int.floor_lt.mpr
      push_cast
      linarith
    omega

theorem mkRat_zero_val : (mkRat 0 1 : ℚ) = 0 := by
  rw [Rat.mkRat_eq_div]
  norm_num

theorem mkRat_quarter : (mkRat 1 4 : ℚ) = 1 / 4 := by
  rw [Rat.mkRat_eq_div]
  norm_num

theorem gwQ_eq (d : ℤ) : gwQ d = gw d := by
  unfold gwQ gw
  split_ifs <;> [exact mkRat_half; exact mkRat_quarter]

theorem maskFieldQ_eq (mask : MaskG) (y x : ℤ) :
    maskFieldQ mask y x = maskField mask y x := by
  unfold maskFieldQ maskField
  split_ifs <;> [exact mkRat_one; exact mkRat_zero_val]

theorem blurredMaskQ_eq (mask : MaskG) (y x : ℕ) :
    blurredMaskQ mask y x = blurredMask mask y x := by
  unfold blurredMaskQ blurredMask
  simp [qsum, qadd_eq, qmul_eq, gwQ_eq, maskFieldQ_eq, mkRat_zero_val]

theorem toU8_mkRatNat (n : ℕ) : toU8 (mkRat n 1) = n := by
  unfold toU8
  rw [mkRat_int, Int.floor_intCast]
  omega

theorem blendF32zero_unmasked (mask : MaskG) (hasAny : Bool) (y x : ℕ)
    (hm : mask.m y x = false) (p0 : ℕ) :
    blendChannelF32zero mask hasAny y x p0 = mkRat p0 1 := by
  unfold blendChannelF32zero
  rw [hm]
  simp

theorem paint_multiple_eq_foldl (rz : MaskG → ℕ → ℕ → ℕ → ℕ → Bool) :
    ∀ (rs : List ColoredMaskReq) (img : Img),
      paint_multiple_masks rz img rs = rs.foldl (paintStep rz) img := by
  intro rs
  induction rs with
  | nil => intro img; rfl
  | cons r rs ih => intro img; simpa [paint_multiple_masks, List.foldl] using ih _

theorem selInv_skip (x y : ℤ) (processed : List CandMask)
    (s : Option CandMask × ℚ) (c : CandMask) (h : SelInv x y processed s)
    (hc : candHit x y c = true → candScore c ≤ s.2) :
    SelInv x y (processed ++ [c]) s := by
  obtain ⟨h0, hdom, hnone, hsome⟩ := h
  refine ⟨h0, ?_, hnone, ?_⟩
  · intro cc hcc hhit
    rcases List.mem_append.mp hcc with h1 | h2
    · exact hdom cc h1 hhit
    · have : cc = c := by simpa using h2
      subst this
      exact hc hhit
  · intro cb hcb
    obtain ⟨hb1, hb2, hb3, l₁, l₂, hdec, hlt⟩ := hsome cb hcb
    exact ⟨hb1, hb2, hb3, l₁, l₂ ++ [c], by rw [hdec]; simp, hlt⟩

theorem selInv_upd (x y : ℤ) (processed : List CandMask)
    (s : Option CandMask × ℚ) (c : CandMask) (h : SelInv x y processed s)
    (hhit : candHit x y c = true) (hgt : s.2 < candScore c) :
    SelInv x y (processed ++ [c]) (some c, candScore c) := by
  obtain ⟨h0, hdom, _, _⟩ := h
  refine ⟨le_trans h0 (le_of_lt hgt), ?_, ?_, ?_⟩
  · intro cc hcc hhit2
    rcases List.mem_append.mp hcc with h1 | h2
    · exact le_of_lt (lt_of_le_of_lt (hdom cc h1 hhit2) hgt)
    · have : cc = c := by simpa using h2
      subst this
      exact le_refl _
  · intro hcontra
    cases hcontra
  · intro cb hcb
    have : cb = c := by injection hcb with h2; exact h2.symm
    subst this
    refine ⟨hhit, rfl, lt_of_le_of_lt h0 hgt, processed, [], rfl, ?_⟩
    intro cc hcc hhit2
    exact lt_of_le_of_lt (hdom cc hcc hhit2) hgt

theorem selInv_step (x y : ℤ) (processed : List CandMask)
    (s : Option CandMask × ℚ) (c : CandMask) (h : SelInv x y processed s) :
    SelInv x y (processed ++ [c]) (gmapStep x y s c) := by
  cases hm : c.mask? with
  | none =>
    have heq : gmapStep x y s c = s := by simp [gmapStep, hm]
    rw [heq]
    exact selInv_skip x y processed s c h
      (by simp [candHit, hm])
  | some mk =>
    by_cases hct : containsPt mk x y = true
    · have hhit : candHit x y c = true := by simp [candHit, hm, hct]
      by_cases hgt : candScore c > s.2
      · have heq : gmapStep x y s c = (some c, candScore c) := by
          simp [gmapStep, hm, hct, hgt]
        rw [heq]
        exact selInv_upd x y processed s c h hhit hgt
      · have heq : gmapStep x y s c = s := by simp [gmapStep, hm, hct, hgt]
        rw [heq]
        exact selInv_skip x y processed s c h (fun _ => le_of_not_lt hgt)
    · have heq : gmapStep x y s c = s := by simp [gmapStep, hm, hct]
      rw [heq]
      exact selInv_skip x y processed s c h
        (by simp [candHit, hm]; intro h2; exact absurd h2 hct)

theorem selInv_fold (x y : ℤ) :
    ∀ (rest processed : List CandMask) (s : Option CandMask × ℚ),
      SelInv x y processed s →
      SelInv x y (processed ++ rest) (rest.foldl (gmapStep x y) s) := by
  intro rest
  induction rest with
  | nil => intro processed s h; simpa using h
  | cons c rest ih =>
    intro processed s h
    have h2 := selInv_step x y processed s c h
    have h3 := ih (processed ++ [c]) (gmapStep x y s c) h2
    simpa [List.append_assoc] using h3

theorem get_mask_inv (x y : ℤ) (cands : List CandMask) :
    SelInv x y cands (cands.foldl (gmapStep x y) (none, 0)) := by
  have hinit : SelInv x y [] ((none : Option CandMask), (0 : ℚ)) := by
    refine ⟨le_refl 0, ?_, fun _ => rfl, ?_⟩
    · intro cc hcc
      cases hcc
    · intro cb hcb
      cases hcb
  simpa using selInv_fold x y cands [] (none, 0) hinit

theorem b64char_keep : ∀ n < 64, b64keep (b64char n) = true := by decide

theorem b64char_ne_pad : ∀ n < 64, (b64char n != '=') = true := by decide

theorem b64index_b64char : ∀ n < 64, b64index (b64char n) = n := by decide

theorem b64keep_pad : b64keep '=' = true := by decide

theorem pad_ne_self : ('=' != '=') = false := by decide

theorem b64encode_props :
    ∀ (k : ℕ) (bytes : List ℕ), bytes.length ≤ k → (∀ b ∈ bytes, b < 256) →
      ((b64encode bytes).filter b64keep = b64encode bytes)
      ∧ (b64encode bytes).length % 4 = 0
      ∧ decodeQuads ((b64encode bytes).takeWhile (fun c => c != '='))
          = some bytes := by
  intro k
  induction k with
  | zero =>
    intro bytes hlen _
    have h0 : bytes = [] := List.eq_nil_of_length_eq_zero (Nat.le_zero.mp hlen)
    subst h0
    exact ⟨rfl, rfl, rfl⟩
  | succ k ih =>
    intro bytes hlen hb
    match bytes with
    | [] => exact ⟨rfl, rfl, rfl⟩
    | [b1] =>
      have h1 : b1 < 256 := hb b1 (by simp)
      have ka := b64char_keep (b1 / 4) (by omega)
      have kb := b64char_keep (b1 % 4 * 16) (by omega)
      have na := b64char_ne_pad (b1 / 4) (by omega)
      have nb := b64char_ne_pad (b1 % 4 * 16) (by omega)
      refine ⟨?_, by simp [b64encode], ?_⟩
      · simp [b64encode, List.filter, ka, kb, b64keep_pad]
      · simp [b64encode, List.takeWhile, na, nb, pad_ne_self, decodeQuads]
        rw [b64index_b64char _ (by omega : b1 / 4 < 64),
          b64index_b64char _ (by omega : b1 % 4 * 16 < 64)]
        omega
    | [b1, b2] =>
      have h1 : b1 < 256 := hb b1 (by simp)
      have h2 : b2 < 256 := hb b2 (by simp)
      have ka := b64char_keep (b1 / 4) (by omega)
      have kb := b64char_keep (b1 % 4 * 16 + b2 / 16) (by omega)
      have kc := b64char_keep (b2 % 16 * 4) (by omega)
      have na := b64char_ne_pad (b1 / 4) (by omega)
      have nb := b64char_ne_pad (b1 % 4 * 16 + b2 / 16) (by omega)
      have nc := b64char_ne_pad (b2 % 16 * 4) (by omega)
      refine ⟨?_, by simp [b64encode], ?_⟩
      · simp [b64encode, List.filter, ka, kb, kc, b64keep_pad]
      · simp [b64encode, List.takeWhile, na, nb, nc, pad_ne_self, decodeQuads]
        rw [b64index_b64char _ (by omega : b1 / 4 < 64),
          b64index_b64char _ (by omega : b1 % 4 * 16 + b2 / 16 < 64),
          b64index_b64char _ (by omega : b2 % 16 * 4 < 64)]
        constructor
        · omega
        · omega
    | b1 :: b2 :: b3 :: rest =>
      have h1 : b1 < 256 := hb b1 (by simp)
      have h2 : b2 < 256 := hb b2 (by simp)
      have h3 : b3 < 256 := hb b3 (by simp)
      have hrest : ∀ b ∈ rest, b < 256 := fun b hm => hb b (by simp [hm])
      have hlen2 : rest.length ≤ k := by
        simp only [List.length_cons] at hlen
        omega
      obtain ⟨ihf, ihl, ihd⟩ := ih rest hlen2 hrest
      have ka := b64char_keep (b1 / 4) (by omega)
      have kb := b64char_keep (b1 % 4 * 16 + b2 / 16) (by omega)
      have kc := b64char_keep (b2 % 16 * 4 + b3 / 64) (by omega)
      have kd := b64char_keep (b3 % 64) (by omega)
      have na := b64char_ne_pad (b1 / 4) (by omega)
      have nb := b64char_ne_pad (b1 % 4 * 16 + b2 / 16) (by omega)
      have nc := b64char_ne_pad (b2 % 16 * 4 + b3 / 64) (by omega)
      have nd := b64char_ne_pad (b3 % 64) (by omega)
      refine ⟨?_, ?_, ?_⟩
      · simp [b64encode, List.filter_cons, ka, kb, kc, kd, ihf]
      · simp only [b64encode, List.length_cons]
        omega
      · simp [b64encode, List.takeWhile_cons, na, nb, nc, nd, decodeQuads, ihd]
        rw [b64index_b64char _ (by omega : b1 / 4 < 64),
          b64index_b64char _ (by omega : b1 % 4 * 16 + b2 / 16 < 64),
          b64index_b64char _ (by omega : b2 % 16 * 4 + b3 / 64 < 64),
          b64index_b64char _ (by omega : b3 % 64 < 64)]
        refine ⟨?_, ?_, ?_⟩
        · omega
        · omega
        · omega

theorem b64_roundtrip (bytes : List ℕ) (hb : ∀ b ∈ bytes, b < 256) :
    b64decode (b64encode bytes) = some bytes := by
  obtain ⟨hf, hl, hd⟩ := b64encode_props bytes.length bytes le_rfl hb
  unfold b64decode
  rw [hf, if_pos hl]
  exact hd

theorem readDim_dimBytes (n : ℕ) (h : n < 4294967296) :
    readDim (dimBytes n) = n := by
  simp only [readDim, dimBytes, List.getD_cons_zero, List.getD_cons_succ]
  omega

theorem flattenRows_length {α : Type} (n : ℕ) :
    ∀ rows : List (List α), (∀ r ∈ rows, r.length = n) →
      (flattenRows rows).length = rows.length * n := by
  intro rows
  induction rows with
  | nil => intro _; simp [flattenRows]
  | cons r rs ih =>
    intro h
    have h1 : r.length = n := h r (by simp)
    have h2 := ih (fun r2 hm => h r2 (by simp [hm]))
    simp [flattenRows, List.length_append, h1, h2]
    ring

theorem chunks_flattenRows {α : Type} (n : ℕ) :
    ∀ rows : List (List α), (∀ r ∈ rows, r.length = n) →
      chunks n rows.length (flattenRows rows) = rows := by
  intro rows
  induction rows with
  | nil => intro _; rfl
  | cons r rs ih =>
    intro h
    have hr : r.length = n := h r (by simp)
    simp only [flattenRows, List.length_cons, chunks]
    have t1 : List.take n (r ++ flattenRows rs) = r := by
      rw [← hr, List.take_left]
    have t2 : List.drop n (r ++ flattenRows rs) = flattenRows rs := by
      rw [← hr, List.drop_left]
    rw [t1, t2, ih (fun r2 hm => h r2 (by simp [hm]))]

theorem groupPix_flatten (row : List (ℕ × ℕ × ℕ × ℕ)) :
    groupPix (flattenRows (row.map pix4)) = row := by
  induction row with
  | nil => rfl
  | cons p ps ih => simp [flattenRows, pix4, groupPix, ih]

theorem rowPix4_length (row : List (ℕ × ℕ × ℕ × ℕ)) :
    (flattenRows (row.map pix4)).length = 4 * row.length := by
  induction row with
  | nil => rfl
  | cons p ps ih => simp [flattenRows, pix4, ih]; ring

theorem mem_flattenRows {α : Type} (b : α) :
    ∀ rows : List (List α), b ∈ flattenRows rows → ∃ r ∈ rows, b ∈ r := by
  intro rows
  induction rows with
  | nil => intro h; cases h
  | cons r rs ih =>
    intro h
    rcases List.mem_append.mp h with h1 | h2
    · exact ⟨r, by simp, h1⟩
    · obtain ⟨r2, hm, hb⟩ := ih h2
      exact ⟨r2, by simp [hm], hb⟩

theorem parseImage_rgba_bytes (X : List ℕ) :
    parseImage (pngMagic ++ 4 :: X)
      = (if (X.drop 8).length
            = readDim (X.take 4) * (readDim ((X.drop 4).take 4) * 4) then
          some (.rgba ((chunks (readDim ((X.drop 4).take 4) * 4)
            (readDim (X.take 4)) (X.drop 8)).map groupPix))
        else none) := by
  have hmagic : (pngMagic ++ 4 :: X).take 8 = pngMagic := by
    rw [show (8 : ℕ) = pngMagic.length from rfl, List.take_left]
  have hdrop : (pngMagic ++ 4 :: X).drop 8 = 4 :: X := by
    rw [show (8 : ℕ) = pngMagic.length from rfl, List.drop_left]
  unfold parseImage
  rw [if_pos hmagic, hdrop]
  rfl

theorem parse_serialize_rgba (g : List (List (ℕ × ℕ × ℕ × ℕ)))
    (hrect : ∀ r ∈ g, r.length = gridW g)
    (hh : g.length < 4294967296) (hw : gridW g < 4294967296) :
    parseImage (serializeImage (.rgba g)) = some (.rgba g) := by
  have hrows : ∀ r ∈ g.map (fun row => flattenRows (row.map pix4)),
      r.length = gridW g * 4 := by
    intro r hm
    obtain ⟨row, hrow, hfr⟩ := List.mem_map.mp hm
    rw [← hfr, rowPix4_length, hrect row hrow]
    ring
  have hflatlen :
      (flattenRows (g.map (fun row => flattenRows (row.map pix4)))).length
        = g.length * (gridW g * 4) := by
    rw [flattenRows_length (gridW g * 4) _ hrows, List.length_map]
  have hX4 : (dimBytes g.length ++ dimBytes (gridW g)
      ++ flattenRows (g.map (fun row => flattenRows (row.map pix4)))).take 4
        = dimBytes g.length := by
    rw [List.append_assoc, show (4 : ℕ) = (dimBytes g.length).length from rfl,
      List.take_left]
  have hXd4 : (dimBytes g.length ++ dimBytes (gridW g)
      ++ flattenRows (g.map (fun row => flattenRows (row.map pix4)))).drop 4
        = dimBytes (gridW g)
          ++ flattenRows (g.map (fun row => flattenRows (row.map pix4))) := by
    rw [List.append_assoc, show (4 : ℕ) = (dimBytes g.length).length from rfl,
      List.drop_left]
  have hXd8 : (dimBytes g.length ++ dimBytes (gridW g)
      ++ flattenRows (g.map (fun row => flattenRows (row.map pix4)))).drop 8
        = flattenRows (g.map (fun row => flattenRows (row.map pix4))) := by
    rw [show (8 : ℕ)
        = (dimBytes g.length ++ dimBytes (gridW g)).length from rfl,
      List.drop_left]
  have hXd4t : (dimBytes (gridW g)
      ++ flattenRows (g.map (fun row => flattenRows (row.map pix4)))).take 4
        = dimBytes (gridW g) := by
    rw [show (4 : ℕ) = (dimBytes (gridW g)).length from rfl, List.take_left]
  show parseImage (pngMagic ++ 4 :: (dimBytes g.length ++ dimBytes (gridW g)
      ++ flattenRows (g.map (fun row => flattenRows (row.map pix4)))))
    = some (.rgba g)
  rw [parseImage_rgba_bytes, hX4, hXd4, hXd8, hXd4t,
    readDim_dimBytes _ hh, readDim_dimBytes _ hw]
  rw [if_pos (by rw [hflatlen])]
  rw [show g.length
      = (g.map (fun row => flattenRows (row.map pix4))).length by simp]
  rw [chunks_flattenRows (gridW g * 4) _ hrows]
  rw [List.map_map]
  have hid : ∀ row ∈ g,
      (groupPix ∘ fun r => flattenRows (r.map pix4)) row = id row := by
    intro row _
    simp [groupPix_flatten]
  rw [List.map_congr_left hid, List.map_id]

theorem lum_white : decide (luminance 255 255 255 > 0) = true := by decide

theorem lum_black : decide (luminance 0 0 0 > 0) = false := by decide

theorem gridW_maskToRGBA (M : List (List Bool)) :
    gridW (maskToRGBA M) = gridW M := by
  cases M with
  | nil => rfl
  | cons r rs => simp [maskToRGBA, gridW]

theorem pngMagic_lt : ∀ x ∈ pngMagic, x < 256 := by decide

theorem dimBytes_lt (n : ℕ) : ∀ x ∈ dimBytes n, x < 256 := by
  intro x hx
  simp [dimBytes] at hx
  rcases hx with h | h | h | h <;> omega

theorem serialize_mask_bytes_lt (M : List (List Bool)) :
    ∀ b ∈ serializeImage (.rgba (maskToRGBA M)), b < 256 := by
  intro b hb
  unfold serializeImage at hb
  rcases List.mem_append.mp hb with h1 | h2
  · exact pngMagic_lt b h1
  · rcases List.mem_cons.mp h2 with h3 | h4
    · omega
    · rcases List.mem_append.mp h4 with h5 | h6
      · rcases List.mem_append.mp h5 with h7 | h8
        · exact dimBytes_lt _ b h7
        · exact dimBytes_lt _ b h8
      · obtain ⟨r, hr, hbr⟩ := mem_flattenRows b _ h6
        obtain ⟨row, hrow, hfr⟩ := List.mem_map.mp hr
        rw [← hfr] at hbr
        obtain ⟨q, hq, hbq⟩ := mem_flattenRows b _ hbr
        obtain ⟨p, hp, hqp⟩ := List.mem_map.mp hq
        rw [maskToRGBA] at hrow
        obtain ⟨brow, _, hroweq⟩ := List.mem_map.mp hrow
        rw [← hroweq] at hp
        obtain ⟨bb, _, hpb⟩ := List.mem_map.mp hp
        rw [← hqp, ← hpb] at hbq
        simp [pix4] at hbq
        rw [hbq]
        cases bb <;> simp

theorem decodeRow_maskRow (row : List Bool) :
    ((row.map (fun b =>
        ((if b then (255 : ℕ) else 0), (if b then (255 : ℕ) else 0),
         (if b then (255 : ℕ) else 0), (if b then (255 : ℕ) else 0)))).map
      (fun p => decide (luminance p.1 p.2.1 p.2.2.1 > 0))) = row := by
  induction row with
  | nil => rfl
  | cons b bs ih =>
    cases b <;> simp only [List.map_cons, ih] <;>
      simp [lum_white, lum_black]

theorem decode_encode_mask (M : List (List Bool))
    (hrect : ∀ r ∈ M, r.length = gridW M)
    (hh : M.length < 4294967296) (hw : gridW M < 4294967296) :
    decode_mask (encode_mask M) = .ok M := by
  have hrect2 : ∀ r ∈ maskToRGBA M, r.length = gridW (maskToRGBA M) := by
    intro r hm
    obtain ⟨row, hrow, hfr⟩ := List.mem_map.mp hm
    rw [← hfr, List.length_map, gridW_maskToRGBA]
    exact hrect row hrow
  have hh2 : (maskToRGBA M).length < 4294967296 := by
    simpa [maskToRGBA] using hh
  have hw2 : gridW (maskToRGBA M) < 4294967296 := by
    rwa [gridW_maskToRGBA]
  have h1 := b64_roundtrip (serializeImage (.rgba (maskToRGBA M)))
    (serialize_mask_bytes_lt M)
  have h2 := parse_serialize_rgba (maskToRGBA M) hrect2 hh2 hw2
  simp only [encode_mask, decode_mask, h1, h2]
  simp only [Except.ok.injEq, maskToRGBA, List.map_map]
  have hid : ∀ row ∈ M,
      ((fun row => List.map
          (fun p => decide (luminance p.1 p.2.1 p.2.2.1 > 0)) row)
        ∘ (fun row => row.map (fun b =>
            ((if b then (255 : ℕ) else 0), (if b then (255 : ℕ) else 0),
             (if b then (255 : ℕ) else 0), (if b then (255 : ℕ) else 0)))))
        row = id row := by
    intro row _
    simp only [Function.comp_apply, id_eq]
    exact decodeRow_maskRow row
  rw [List.map_congr_left hid, List.map_id]

theorem splitOnComma_no_comma :
    ∀ l : Str, ',' ∉ l → splitOnComma l = [l] := by
  intro l
  induction l with
  | nil => intro _; rfl
  | cons c rest ih =>
    intro h
    have hc : ¬(c = ',') := fun hcc => h (by rw [hcc]; exact List.mem_cons_self _ _)
    have hrest : ',' ∉ rest := fun hm => h (List.mem_cons_of_mem _ hm)
    simp [splitOnComma, hc, ih hrest]

theorem splitOnComma_append (B : Str) :
    ∀ A : Str, ',' ∉ A → splitOnComma (A ++ ',' :: B) = A :: splitOnComma B := by
  intro A
  induction A with
  | nil => intro _; simp [splitOnComma]
  | cons c A2 ih =>
    intro h
    have hc : ¬(c = ',') := fun hcc => h (by rw [hcc]; exact List.mem_cons_self _ _)
    have hA2 : ',' ∉ A2 := fun hm => h (List.mem_cons_of_mem _ hm)
    simp [splitOnComma, hc, ih hA2]

theorem strip_data_uri_prefixed (payload : Str) (hc : ',' ∉ payload) :
    strip_data_uri (dataUriPng ++ payload) = payload := by
  have htake : (dataUriPng ++ payload).take 10 = dataUriHead := by
    rw [show dataUriPng = dataUriHead ++ "/png;base64,".toList from rfl,
      List.append_assoc, show (10 : ℕ) = dataUriHead.length from rfl,
      List.take_left]
  unfold strip_data_uri
  rw [if_pos htake]
  rw [show dataUriPng ++ payload
      = "data:image/png;base64".toList ++ ',' :: payload by rfl]
  rw [splitOnComma_append payload _ (by decide), splitOnComma_no_comma payload hc]
  rfl

theorem strip_data_uri_bare (payload : Str) (hcol : ':' ∉ payload) :
    strip_data_uri payload = payload := by
  unfold strip_data_uri
  rw [if_neg]
  intro hcon
  apply hcol
  have : ':' ∈ payload.take 10 := by rw [hcon]; decide
  exact List.take_subset 10 payload this

theorem prefixed_mask_decode_error (M : List (List Bool)) :
    decode_mask (dataUriPng ++ encode_mask M) = .error "DecodeError" := by
  obtain ⟨hf, hl, _⟩ := b64encode_props
    (serializeImage (.rgba (maskToRGBA M))).length
    (serializeImage (.rgba (maskToRGBA M))) le_rfl
    (serialize_mask_bytes_lt M)
  have hnone : b64decode (dataUriPng ++ encode_mask M) = none := by
    unfold b64decode encode_mask
    rw [List.filter_append, hf]
    rw [show dataUriPng.filter b64keep = "dataimage/pngbase64".toList from rfl]
    rw [List.length_append,
      show ("dataimage/pngbase64".toList).length = 19 from rfl]
    rw [if_neg]
    omega
  unfold decode_mask
  rw [hnone]

theorem idsOK_snoc (acc : List MaskResponse) (m : MaskResponse)
    (h : IdsOK acc) (hm : m.id = acc.length) : IdsOK (acc ++ [m]) := by
  intro i mi hi
  rcases Nat.lt_trichotomy i acc.length with hlt | heq | hgt
  · rw [List.get?_append hlt] at hi
    exact h i mi hi
  · subst heq
    rw [List.get?_append_right (le_refl _)] at hi
    simp at hi
    rw [← hi]
    exact hm
  · rw [List.get?_append_right (le_of_lt hgt)] at hi
    rw [List.get?_eq_none.mpr (by simp; omega)] at hi
    cases hi

theorem processMasks_go_ids :
    ∀ (raws : List RawMaskInfo) (acc : List MaskResponse), IdsOK acc →
      IdsOK (processMasks_go acc raws) := by
  intro raws
  induction raws with
  | nil => intro acc h; exact h
  | cons r rs ih =>
    intro acc h
    cases hs : r.segmentation? with
    | none =>
      rw [show processMasks_go acc (r :: rs) = processMasks_go acc rs by
        simp [processMasks_go, hs]]
      exact ih acc h
    | some seg =>
      by_cases ha : r.area?.getD 0 < 10
      · rw [show processMasks_go acc (r :: rs) = processMasks_go acc rs by
          simp [processMasks_go, hs, ha]]
        exact ih acc h
      · rw [show processMasks_go acc (r :: rs)
            = processMasks_go (acc ++ [{
                id := acc.length,
                mask := encode_mask seg,
                score := r.predicted_iou?.getD 0,
                bbox? := r.bbox?,
                area := r.area?.getD 0,
                stability_score := r.stability_score?.getD 0 }]) rs by
          simp [processMasks_go, hs, ha]]
        exact ih _ (idsOK_snoc acc _ h rfl)

theorem ids_eq_range (l : List MaskResponse) (h : IdsOK l) :
    l.map (fun mi => mi.id) = List.range l.length := by
  apply List.ext
  intro n
  rcases lt_or_ge n l.length with hn | hn
  · rw [List.get?_map, List.get?_range hn]
    cases hg : l.get? n with
    | none =>
      rw [List.get?_eq_none] at hg
      omega
    | some mi =>
      simp [h n mi hg]
  · rw [List.get?_map,
      List.get?_eq_none.mpr (by simpa using hn),
      List.get?_eq_none.mpr (by simpa using hn)]
    rfl

theorem buildStoredTable_lookup :
    ∀ (l : List MaskResponse), IdsOK l →
      ∀ k, buildStoredTable l k = (l.get? k).map toStored := by
  intro l
  induction l using List.reverseRecOn with
  | nil => intro _ k; rfl
  | append_singleton l m ih =>
    intro h k
    have hids : IdsOK l := by
      intro i mi hi
      obtain ⟨hlt, _⟩ := List.get?_eq_some.mp hi
      apply h i mi
      rw [List.get?_append hlt]
      exact hi
    have hm : m.id = l.length := by
      apply h l.length m
      rw [List.get?_append_right (le_refl _)]
      simp
    have hfold : buildStoredTable (l ++ [m]) k
        = if k = m.id then some (toStored m) else buildStoredTable l k := by
      unfold buildStoredTable
      rw [List.foldl_append]
      rfl
    rw [hfold]
    by_cases hk : k = m.id
    · rw [if_pos hk, hk, hm, List.get?_append_right (le_refl _)]
      simp
    · rw [if_neg hk, ih hids k]
      rcases lt_or_ge k l.length with hlt | hge
      · rw [List.get?_append hlt]
      · have hgt : l.length < k := by
          rcases Nat.lt_or_ge l.length k with h2 | h2
          · exact h2
          · exact absurd (le_antisymm hge h2).symm
              (by rw [hm] at hk; exact hk)
        rw [List.get?_append_right hge,
          List.get?_eq_none.mpr (le_of_lt hgt),
          List.get?_eq_none.mpr (by simp; omega)]

theorem key_unique {α β : Type} :
    ∀ (tbl : List (α × β)), (tbl.map Prod.fst).Nodup →
      ∀ a b, a ∈ tbl → b ∈ tbl → a.1 = b.1 → a = b := by
  intro tbl
  induction tbl with
  | nil => intro _ a b ha; cases ha
  | cons e rest ih =>
    intro hnd a b ha hb hk
    rw [List.map_cons, List.nodup_cons] at hnd
    obtain ⟨hne, hnd2⟩ := hnd
    rcases List.mem_cons.mp ha with ha1 | ha2 <;>
      rcases List.mem_cons.mp hb with hb1 | hb2
    · rw [ha1, hb1]
    · exfalso
      subst ha1
      apply hne
      rw [hk]
      exact List.mem_map_of_mem _ hb2
    · exfalso
      subst hb1
      apply hne
      rw [← hk]
      exact List.mem_map_of_mem _ ha2
    · exact ih hnd2 a b ha2 hb2 hk

theorem b64chars_length : b64chars.length = 64 := by decide

theorem b64index_lt (c : Char) (h : c ∈ b64chars) : b64index c < 64 := by
  have := List.indexOf_lt_length.mpr h
  rw [b64chars_length] at this
  exact this

theorem mem_data_chars (s : Str) (c : Char)
    (h : c ∈ (s.filter b64keep).takeWhile (fun c => c != '=')) :
    c ∈ b64chars := by
  have h1 := List.mem_takeWhile_imp h
  have h2 := List.takeWhile_subset (fun c => c != '=') h
  have h3 := (List.mem_filter.mp h2).2
  unfold b64keep at h3
  rcases Bool.or_eq_true_iff.mp h3 with hk | hp
  · simpa using hk
  · exfalso
    simp only [bne_iff_ne, ne_eq] at h1
    exact h1 (by simpa using hp)

theorem decodeQuads_bytes_lt :
    ∀ (k : ℕ) (s : Str) (bytes : List ℕ), s.length ≤ k →
      (∀ c ∈ s, c ∈ b64chars) → decodeQuads s = some bytes →
      ∀ v ∈ bytes, v < 256 := by
  intro k
  induction k with
  | zero =>
    intro s bytes hlen hm hd
    have h0 : s = [] := List.eq_nil_of_length_eq_zero (Nat.le_zero.mp hlen)
    subst h0
    unfold decodeQuads at hd
    injection hd with hd
    subst hd
    intro v hv
    cases hv
  | succ k ih =>
    intro s bytes hlen hm hd
    match s with
    | [] =>
      unfold decodeQuads at hd
      injection hd with hd
      subst hd
      intro v hv
      cases hv
    | [a] =>
      unfold decodeQuads at hd
      cases hd
    | [a, b] =>
      have ha := b64index_lt a (hm a (by simp))
      have hb := b64index_lt b (hm b (by simp))
      unfold decodeQuads at hd
      injection hd with hd
      subst hd
      intro v hv
      cases hv with
      | head => omega
      | tail _ h2 => cases h2
    | [a, b, c] =>
      have ha := b64index_lt a (hm a (by simp))
      have hb := b64index_lt b (hm b (by simp))
      have hc := b64index_lt c (hm c (by simp))
      unfold decodeQuads at hd
      injection hd with hd
      subst hd
      intro v hv
      cases hv with
      | head => omega
      | tail _ h2 =>
        cases h2 with
        | head => omega
        | tail _ h3 => cases h3
    | a :: b :: c :: d :: rest =>
      have ha := b64index_lt a (hm a (by simp))
      have hb := b64index_lt b (hm b (by simp))
      have hc := b64index_lt c (hm c (by simp))
      have hdx := b64index_lt d (hm d (by simp))
      unfold decodeQuads at hd
      match hrec : decodeQuads rest with
      | none =>
        rw [hrec] at hd
        cases hd
      | some t =>
        rw [hrec] at hd
        injection hd with hd
        subst hd
        have hmrest : ∀ x ∈ rest, x ∈ b64chars := by
          intro x hx
          exact hm x (by simp [hx])
        have hlen2 : rest.length ≤ k := by
          simp only [List.length_cons] at hlen
          omega
        have iht := ih rest t hlen2 hmrest hrec
        intro v hv
        cases hv with
        | head => omega
        | tail _ h1 =>
          cases h1 with
          | head => omega
          | tail _ h2 =>
            cases h2 with
            | head => omega
            | tail _ h3 => exact iht v h3

theorem b64decode_bytes_lt (s : Str) (bytes : List ℕ)
    (h : b64decode s = some bytes) : ∀ v ∈ bytes, v < 256 := by
  unfold b64decode at h
  split at h
  · exact decodeQuads_bytes_lt _ _ bytes le_rfl
      (fun c hc => mem_data_chars s c hc) h
  · cases h

theorem getD_lt (l : List ℕ) (i : ℕ) (h : ∀ v ∈ l, v < 256) :
    l.getD i 0 < 256 := by
  induction l generalizing i with
  | nil => simp
  | cons x xs ihx =>
    cases i with
    | zero =>
      simp only [List.getD_cons_zero]
      exact h x (by simp)
    | succ j =>
      simp only [List.getD_cons_succ]
      exact ihx j (fun v hv => h v (by simp [hv]))

theorem readDim_lt (b : List ℕ) (h : ∀ v ∈ b, v < 256) :
    readDim b < 4294967296 := by
  unfold readDim
  have h0 := getD_lt b 0 h
  have h1 := getD_lt b 1 h
  have h2 := getD_lt b 2 h
  have h3 := getD_lt b 3 h
  omega

theorem chunks_length {α : Type} (w : ℕ) :
    ∀ (h : ℕ) (flat : List α), (chunks w h flat).length = h := by
  intro h
  induction h with
  | zero => intro flat; rfl
  | succ k ihk =>
    intro flat
    unfold chunks
    simp only [List.length_cons]
    rw [ihk]

theorem groupPix_length :
    ∀ (k : ℕ) (l : List ℕ), l.length ≤ k →
      (groupPix l).length = l.length / 4 := by
  intro k
  induction k with
  | zero =>
    intro l hlen
    have h0 : l = [] := List.eq_nil_of_length_eq_zero (Nat.le_zero.mp hlen)
    subst h0
    rfl
  | succ k ih =>
    intro l hlen
    match l with
    | [] => rfl
    | [a] => simp [groupPix]
    | [a, b] => simp [groupPix]
    | [a, b, c] => simp [groupPix]
    | a :: b :: c :: d :: rest =>
      simp only [groupPix, List.length_cons]
      have hlen2 : rest.length ≤ k := by
        simp only [List.length_cons] at hlen
        omega
      rw [ih rest hlen2]
      omega

theorem parseImage_dims_lt (bytes : List ℕ) (pimg : PILImage)
    (hb : ∀ v ∈ bytes, v < 256) (hp : parseImage bytes = some pimg) :
    (pilToRGB pimg).h < 4294967296 ∧ (pilToRGB pimg).w < 4294967296 := by
  unfold parseImage at hp
  split at hp
  · rename_i hmagic
    split at hp
    · cases hp
    · rename_i mode rest hdrop
      have hrestb : ∀ v ∈ rest, v < 256 := by
        intro v hv
        apply hb
        have : v ∈ bytes.drop 8 := by
          rw [hdrop]
          simp [hv]
        exact List.drop_subset 8 bytes this
      have hhb : readDim (rest.take 4) < 4294967296 :=
        readDim_lt _ (fun v hv => hrestb v (List.take_subset 4 rest hv))
      have hwb : readDim ((rest.drop 4).take 4) < 4294967296 :=
        readDim_lt _ (fun v hv =>
          hrestb v (List.drop_subset 4 rest (List.take_subset 4 _ hv)))
      dsimp only at hp
      split at hp
      · split at hp
        · injection hp with hp
          subst hp
          constructor
          · show (List.map groupPix _).length < 4294967296
            rw [List.length_map, chunks_length]
            exact hhb
          · show gridW (List.map groupPix _) < 4294967296
            rcases hh0 : readDim (rest.take 4) with _ | k
            · unfold chunks gridW
              simp
            · unfold chunks gridW
              simp only [List.map_cons, List.headD_cons]
              rw [groupPix_length (readDim ((rest.drop 4).take 4) * 4)
                _ (by rw [List.length_take]; omega)]
              have hle : ((rest.drop 8).take (readDim ((rest.drop 4).take 4) * 4)).length
                  ≤ readDim ((rest.drop 4).take 4) * 4 := by
                rw [List.length_take]
                omega
              omega
        · cases hp
      · split at hp
        · split at hp
          · injection hp with hp
            subst hp
            constructor
            · show (chunks _ _ _).length < 4294967296
              rw [chunks_length]
              exact hhb
            · show gridW (chunks _ _ _) < 4294967296
              rcases hh0 : readDim (rest.take 4) with _ | k
              · unfold chunks gridW
                simp
              · unfold chunks gridW
                simp only [List.headD_cons]
                have hle : ((rest.drop 8).take (readDim ((rest.drop 4).take 4))).length
                    ≤ readDim ((rest.drop 4).take 4) := by
                  rw [List.length_take]
                  omega
                omega
          · cases hp
        · cases hp
  · cases hp

theorem validate_image_size_le (rzI : Img → ℕ → ℕ → ℕ → ℕ → ℕ × ℕ × ℕ)
    (img : Img) (hh : img.h < 2 ^ 53) (hw : img.w < 2 ^ 53) :
    max (validate_image_size rzI img).h (validate_image_size rzI img).w
      ≤ 2048 := by
  unfold validate_image_size
  by_cases hbig : max img.h img.w > 2048
  · rw [if_pos hbig]
    by_cases hx : img.h > img.w
    · rw [if_pos hx]
      simp only [max_le_iff]
      exact ⟨le_refl _,
        pyIntMulDiv_le img.w img.h (by omega) (by omega) hh⟩
    · rw [if_neg hx]
      push_neg at hx
      simp only [max_le_iff]
      exact ⟨pyIntMulDiv_le img.h img.w (by omega) hx hw, le_refl _⟩
  · rw [if_neg hbig]
    omega

set_option maxRecDepth 10000 in
/-- C2 (counterexample): the float32 edge-blend pass is not the identity
at opacity 0. For a 3x3 all-13 image and a mask containing only the
center pixel, the blurred mask at the center is 1/4, the float32
computation of `13 * (1 - 0.25 * float32(0.2)) + 13 * (0.25 * float32(0.2))`
is 12.999999046..., and `astype(np.uint8)` truncates it to 12 — the
masked channel changes from 13 to 12, refuting the claim that every pixel
is unchanged. -/
theorem C2_counterexample :
    (paint_mask_on_image_f32_zero img13 mask3).pix 1 1 = (12, 12, 12)
    ∧ img13.pix 1 1 = (13, 13, 13)
    ∧ mask3.m 1 1 = true :=
  ⟨by decide, rfl, rfl⟩

/-- C2 (amended): at opacity 0 the color-fill pass is the identity and
the texture pass is skipped, and in exact real arithmetic the edge-blend
pass also cancels, so `paintOne` would return the input unchanged; but
the source computes the edge-blend pass in float32, where blending a
masked pixel with the identical original can round the channel down (see
`C2_counterexample`). What holds of the float32 computation for every
image, mask, color and texture draw is: every pixel not under the mask is
returned unchanged, and the exact-arithmetic idealization of the full
pipeline is the identity. -/
theorem C2_paintOne_opacity_zero (img : Img) (mask : MaskG) (color : String)
    (texture : ℕ → ℕ → ℚ) :
    (∀ y x, mask.m y x = false →
        (paint_mask_on_image_f32_zero img mask).pix y x = img.pix y x)
    ∧ paint_mask_on_image img mask color 0 texture = img := by
  constructor
  · intro y x hm
    unfold paint_mask_on_image_f32_zero
    simp [blendF32zero_unmasked mask (anyMask mask) y x hm, toU8_mkRatNat,
      toU8_natCast]
  · cases img with
    | mk h w pix =>
      unfold paint_mask_on_image
      simp only [blendChannel_opacity_zero, toU8_natCast]

/-- C2 (witness): at the unmasked corner of the concrete 3x3 instance the
float32 pipeline returns the pixel unchanged, and the exact-arithmetic
pipeline returns the whole image unchanged. -/
theorem C2_paintOne_opacity_zero_witness :
    mask3.m 0 0 = false
    ∧ (paint_mask_on_image_f32_zero img13 mask3).pix 0 0 = img13.pix 0 0
    ∧ paint_mask_on_image img13 mask3 "#00FF00" 0 (fun _ _ => 1) = img13 :=
  ⟨by decide,
   (C2_paintOne_opacity_zero img13 mask3 "#00FF00" (fun _ _ => 1)).1 0 0
     (by decide),
   (C2_paintOne_opacity_zero img13 mask3 "#00FF00" (fun _ _ => 1)).2⟩

/-- C1: `paintMany` equals the left-to-right fold of `paintOne` starting
from the original image, feeding each step's painted output forward: with
the empty request list it returns the input image unchanged, and for two
requests the second is painted on top of the output of the first
(sequential compounding) rather than onto the pristine original. -/
theorem C1_paintMany_is_fold (rz : MaskG → ℕ → ℕ → ℕ → ℕ → Bool) (img : Img) :
    (∀ rs : List ColoredMaskReq,
        paint_multiple_masks rz img rs = rs.foldl (paintStep rz) img)
    ∧ paint_multiple_masks rz img [] = img
    ∧ ∀ r1 r2 : ColoredMaskReq,
        paint_multiple_masks rz img [r1, r2]
          = paintStep rz (paintStep rz img r1) r2 :=
  ⟨fun rs => paint_multiple_eq_foldl rz rs img, rfl, fun _ _ => rfl⟩

/-- C3 (counterexample): a candidate that contains the query point but
carries no score (treated as score 0) is never selected, because the
running best score starts at 0 and only a strictly greater score is
recorded; the selection then fails with NotFound even though a candidate
contains the point, contradicting the claim that NotFound occurs only when
no candidate contains the point. -/
theorem C3_counterexample :
    candHit 0 0 candNoScore = true
    ∧ get_mask_at_point 0 0 [candNoScore] = .error "NotFound" := by
  constructor
  · rfl
  · rfl

/-- C3 (amended): `bestMaskAt` fails with NotFound exactly when no
decodable candidate contains the point with a score strictly greater
than 0 (candidates lacking a score are treated as score 0 and are
therefore never selectable); when it returns a candidate, that candidate
contains the point, has positive score at least that of every containing
candidate, and every containing candidate before it in input order scores
strictly lower (ties keep the first found). -/
theorem C3_bestMaskAt_selection (x y : ℤ) (cands : List CandMask) :
    (get_mask_at_point x y cands = .error "NotFound" ↔
       ∀ c ∈ cands, candHit x y c = true → candScore c ≤ 0)
    ∧ ∀ c, get_mask_at_point x y cands = .ok c →
        c ∈ cands ∧ candHit x y c = true ∧ 0 < candScore c
        ∧ (∀ cc ∈ cands, candHit x y cc = true → candScore cc ≤ candScore c)
        ∧ ∃ l₁ l₂, cands = l₁ ++ c :: l₂
            ∧ ∀ cc ∈ l₁, candHit x y cc = true → candScore cc < candScore c := by
  obtain ⟨h0, hdom, hnone, hsome⟩ := get_mask_inv x y cands
  constructor
  · constructor
    · intro herr c hc hhit
      have h1 : (cands.foldl (gmapStep x y) (none, 0)).1 = none := by
        unfold get_mask_at_point at herr
        cases h2 : (cands.foldl (gmapStep x y) (none, 0)).1 with
        | none => rfl
        | some cb => rw [h2] at herr; cases herr
      have hz := hnone h1
      have := hdom c hc hhit
      rw [hz] at this
      exact this
    · intro hall
      unfold get_mask_at_point
      cases h1 : (cands.foldl (gmapStep x y) (none, 0)).1 with
      | none => rfl
      | some cb =>
        obtain ⟨hb1, hb2, hb3, l₁, l₂, hdec, _⟩ := hsome cb h1
        have hcb : cb ∈ cands := by
          rw [hdec]
          exact List.mem_append_right _ (List.mem_cons_self _ _)
        have hle := hall cb hcb hb1
        rw [hb2] at hle
        exact absurd hle (not_le.mpr hb3)
  · intro c hok
    have h1 : (cands.foldl (gmapStep x y) (none, 0)).1 = some c := by
      unfold get_mask_at_point at hok
      cases h2 : (cands.foldl (gmapStep x y) (none, 0)).1 with
      | none => rw [h2] at hok; cases hok
      | some cb =>
        rw [h2] at hok
        injection hok with h3
        rw [h3]
    obtain ⟨hb1, hb2, hb3, l₁, l₂, hdec, hlt⟩ := hsome c h1
    refine ⟨?_, hb1, by rw [hb2]; exact hb3, ?_, l₁, l₂, hdec, ?_⟩
    · rw [hdec]
      exact List.mem_append_right _ (List.mem_cons_self _ _)
    · intro cc hcc hhit
      rw [hb2]
      exact hdom cc hcc hhit
    · intro cc hcc hhit
      rw [hb2]
      exact hlt cc hcc hhit

/-- C3 (witness): the spec's own example — three candidates all containing
the point (10,10) with scores 0.3, 0.9 and 0.5; the selection returns the
0.9 candidate, whose score is positive and dominates every containing
candidate. -/
theorem C3_bestMaskAt_selection_witness :
    get_mask_at_point 10 10 [candA, candB, candC] = .ok candB
    ∧ 0 < candScore candB
    ∧ ∀ cc ∈ [candA, candB, candC],
        candHit 10 10 cc = true → candScore cc ≤ candScore candB := by
  have hok : get_mask_at_point 10 10 [candA, candB, candC] = .ok candB := by
    unfold get_mask_at_point
    norm_num [List.foldl, gmapStep, candA, candB, candC, candHit, candScore,
      containsPt, mask20]
  have h := (C3_bestMaskAt_selection 10 10 [candA, candB, candC]).2 candB hok
  exact ⟨hok, h.2.2.1, h.2.2.2.1⟩

/-- C4 (counterexample): a remote failure on the single-mask painting path
(`SAM2Service.paint_mask`) is re-raised, not downgraded to a local
compositing success, so the caller sees the failure even though local
compositing is possible. -/
theorem C4_counterexample :
    service_paint_mask (.httpFailure "connection error")
      = .error "connection error" := rfl

/-- C4 (amended): only multi-mask painting falls back: any failure of the
remote multi-mask painting call (transport failure or error payload) is
caught and replaced by the local compositing result, returned as success;
a successful remote call is passed through; the single-mask painting path
surfaces both kinds of remote failure to the caller unchanged. -/
theorem C4_remote_fallback (img : Img) (entries : List LocalEntry)
    (e : String) (r : PaintResult) :
    service_paint_multiple_masks (.httpFailure e)
        (paint_multiple_masks_local img entries)
      = .ok (paint_multiple_masks_local img entries)
    ∧ service_paint_multiple_masks (.errorPayload e)
        (paint_multiple_masks_local img entries)
      = .ok (paint_multiple_masks_local img entries)
    ∧ service_paint_multiple_masks (.success r)
        (paint_multiple_masks_local img entries) = .ok r
    ∧ service_paint_mask (.httpFailure e) = .error e
    ∧ service_paint_mask (.errorPayload e) = .error e :=
  ⟨rfl, rfl, rfl, rfl, rfl⟩

/-- C5 (counterexample): in the multi-mask painting endpoint, an entry
referencing stored id 0 — present in the table — is rejected as
BadRequest (the Python truthiness test `mask_id and ...` treats 0 as
falsy), and an entry referencing an absent id is also rejected as
BadRequest, not NotFound; both contradict the claim. -/
theorem C5_counterexample :
    (stored01 0).isSome = true
    ∧ prepareColoredMasks stored01 [entryId0] = .error .badRequest
    ∧ prepareColoredMasks stored01 [entryId5] = .error .badRequest :=
  ⟨rfl, rfl, rfl⟩

/-- C5 (amended): every colored-mask entry of paintMany must carry either
a truthy inline mask (used directly) or a truthy — hence non-zero — stored
id present in the current table (resolved to the stored mask); an entry
referencing neither, an entry whose id is absent from the table, and an
entry with id 0 are all rejected as BadRequest, and the first failing
entry aborts the whole request with that error. -/
theorem C5_paintMany_mask_resolution (stored : ℕ → Option StoredMask)
    (e : PMEntry) :
    (strTruthy e.mask? = true →
        resolveEntry stored e = .ok
          { mask := e.mask?.getD [], color := e.color?.getD "#FF0000",
            opacity := e.opacity?.getD (7/10) })
    ∧ (strTruthy e.mask? = false → ∀ k m, e.mask_id? = some k → k ≠ 0 →
        stored k = some m →
        resolveEntry stored e = .ok
          { mask := m.mask, color := e.color?.getD "#FF0000",
            opacity := e.opacity?.getD (7/10) })
    ∧ (strTruthy e.mask? = false → e.mask_id? = none →
        resolveEntry stored e = .error .badRequest)
    ∧ (strTruthy e.mask? = false → e.mask_id? = some 0 →
        resolveEntry stored e = .error .badRequest)
    ∧ (strTruthy e.mask? = false → ∀ k, e.mask_id? = some k →
        stored k = none → resolveEntry stored e = .error .badRequest)
    ∧ (∀ es err, resolveEntry stored e = .error err →
        prepareColoredMasks stored (e :: es) = .error err) := by
  refine ⟨?_, ?_, ?_, ?_, ?_, ?_⟩
  · intro hs
    simp [resolveEntry, hs]
  · intro hs k m hk hk0 hst
    simp [resolveEntry, hs, hk, hk0, hst]
  · intro hs hk
    simp [resolveEntry, hs, hk]
  · intro hs hk
    simp [resolveEntry, hs, hk]
  · intro hs k hk hst
    by_cases hk0 : k = 0
    · simp [resolveEntry, hs, hk, hk0]
    · simp [resolveEntry, hs, hk, hk0, hst]
  · intro es err h
    simp [prepareColoredMasks, h]

/-- C5 (witness): a non-zero stored id present in the table resolves to
the stored mask, while the same request shape with id 0 is rejected as a
BadRequest at the request level. -/
theorem C5_paintMany_mask_resolution_witness :
    resolveEntry stored01 entryId1
      = .ok { mask := sm0.mask, color := "#FF0000", opacity := 7/10 }
    ∧ prepareColoredMasks stored01 [entryId0] = .error .badRequest := by
  constructor
  · exact (C5_paintMany_mask_resolution stored01 entryId1).2.1
      rfl 1 sm0 rfl (by decide) rfl
  · exact (C5_paintMany_mask_resolution stored01 entryId0).2.2.2.2.2
      [] .badRequest
      ((C5_paintMany_mask_resolution stored01 entryId0).2.2.2.1 rfl rfl)

/-- C6: after the generate-masks processing, mask ids are exactly
0..n-1 in input order; the endpoint swaps the session's whole mask table
(independently of the prior table), after which any id outside the new
table — in particular a stale id from the prior table — fails with
NotFound, while every id of the new table resolves to the corresponding
input mask. -/
theorem C6_replaceMasks_wholesale (s s2 : Session)
    (raws : List RawMaskInfo) :
    ((processMasks raws).map (fun mi => mi.id)
        = List.range (processMasks raws).length)
    ∧ ((replaceMasks s (processMasks raws)).stored_masks
        = (replaceMasks s2 (processMasks raws)).stored_masks)
    ∧ (∀ k, (processMasks raws).length ≤ k →
        getStoredMask (replaceMasks s (processMasks raws)) k
          = .error .notFound)
    ∧ (∀ k mi, (processMasks raws).get? k = some mi →
        getStoredMask (replaceMasks s (processMasks raws)) k
          = .ok (toStored mi)) := by
  have hids : IdsOK (processMasks raws) :=
    processMasks_go_ids raws [] (by intro i mi hi; cases hi)
  refine ⟨ids_eq_range _ hids, rfl, ?_, ?_⟩
  · intro k hk
    unfold getStoredMask replaceMasks
    simp only []
    rw [buildStoredTable_lookup _ hids k, List.get?_eq_none.mpr hk]
    rfl
  · intro k mi hmi
    unfold getStoredMask replaceMasks
    simp only []
    rw [buildStoredTable_lookup _ hids k, hmi]
    rfl

/-- C6 (witness): for a concrete two-mask generation, ids are 0 and 1, a
stale id (5) is NotFound after the table swap, and id 0 resolves to the
first processed mask. -/
theorem C6_replaceMasks_wholesale_witness :
    ((processMasks raws0).map (fun mi => mi.id)
        = List.range (processMasks raws0).length)
    ∧ getStoredMask (replaceMasks session0 (processMasks raws0)) 5
        = .error .notFound
    ∧ getStoredMask (replaceMasks session0 (processMasks raws0)) 0
        = .ok (toStored mi0) :=
  ⟨(C6_replaceMasks_wholesale session0 session0 raws0).1,
   (C6_replaceMasks_wholesale session0 session0 raws0).2.2.1 5 (by decide),
   (C6_replaceMasks_wholesale session0 session0 raws0).2.2.2 0 mi0 rfl⟩

/-- C9: one pass of the background reaper deletes exactly the sessions
whose age, measured from the creation timestamp (the only time field a
session has), strictly exceeds 3600 seconds: an expired session's entry is
absent from the table after the pass, while a younger session's entry
survives unchanged (for tables with unique session ids, as the store
guarantees). -/
theorem C9_reaper_pass (now : ℤ) (tbl : List (String × Session))
    (hnd : (tbl.map Prod.fst).Nodup) (sid : String) (s : Session)
    (hmem : (sid, s) ∈ tbl) :
    (session_expired now s = true ↔
      ∃ t, s.created_at? = some t ∧ now - t > 3600)
    ∧ (session_expired now s = true →
        (sid, s) ∉ cleanup_old_sessions now tbl)
    ∧ (session_expired now s = false →
        (sid, s) ∈ cleanup_old_sessions now tbl) := by
  refine ⟨?_, ?_, ?_⟩
  · unfold session_expired
    cases s.created_at? with
    | none => simp
    | some t => simp
  · intro hexp hmem2
    have h2 := (List.mem_filter.mp hmem2).2
    rw [decide_eq_true_eq] at h2
    apply h2
    unfold sessions_to_remove
    exact List.mem_map_of_mem Prod.fst (List.mem_filter.mpr ⟨hmem, hexp⟩)
  · intro hexp
    unfold cleanup_old_sessions
    apply List.mem_filter.mpr
    refine ⟨hmem, ?_⟩
    rw [decide_eq_true_eq]
    intro hcon
    unfold sessions_to_remove at hcon
    obtain ⟨e, he, hesid⟩ := List.mem_map.mp hcon
    have he2 := List.mem_filter.mp he
    have heq : e = (sid, s) := key_unique tbl hnd e (sid, s) he2.1 hmem hesid
    rw [heq] at he2
    have hcontra := he2.2
    rw [hexp] at hcontra
    cases hcontra

/-- C9 (witness): at time 10000, the session created at 0 (age 10000 >
3600) is gone after one pass, while the session created at 8000 (age
2000) survives. -/
theorem C9_reaper_pass_witness :
    ("a", session0) ∉ cleanup_old_sessions 10000 tbl2
    ∧ ("b", sessionLate) ∈ cleanup_old_sessions 10000 tbl2 :=
  ⟨(C9_reaper_pass 10000 tbl2 (by decide) "a" session0
      (List.mem_cons_self _ _)).2.1 rfl,
   (C9_reaper_pass 10000 tbl2 (by decide) "b" sessionLate
      (List.mem_cons_of_mem _ (List.mem_cons_self _ _))).2.2 rfl⟩

/-- C10: whenever the decoded image's larger dimension exceeds 2048, size
validation scales the larger axis to 2048 and the other by
`int(other * (2048 / larger))` computed in float64 (`pyIntMulDiv`), so —
for dimensions below 2^53, far above anything a 4-byte PNG dimension
field can carry — the validated image fits within 2048 and its dimensions
differ from those supplied; single- and multi-mask painting report the
validated width and height and paint on the validated image, and any
image produced by `_decode_image` (used by segmentation, combination and
painting alike) fits within 2048. -/
theorem C10_oracle_downscaling
    (rzM : MaskG → ℕ → ℕ → ℕ → ℕ → Bool)
    (rzI : Img → ℕ → ℕ → ℕ → ℕ → ℕ × ℕ × ℕ)
    (img : Img) (mask : MaskG) (color : String) (opacity : ℚ)
    (texture : ℕ → ℕ → ℚ) (rs : List ColoredMaskReq)
    (hbig : max img.h img.w > 2048)
    (hh : img.h < 2 ^ 53) (hw : img.w < 2 ^ 53) :
    (img.h > img.w →
      (validate_image_size rzI img).h = 2048
      ∧ (validate_image_size rzI img).w = pyIntMulDiv img.w 2048 img.h)
    ∧ (img.h ≤ img.w →
      (validate_image_size rzI img).w = 2048
      ∧ (validate_image_size rzI img).h = pyIntMulDiv img.h 2048 img.w)
    ∧ max (validate_image_size rzI img).h (validate_image_size rzI img).w
        ≤ 2048
    ∧ ¬((validate_image_size rzI img).h = img.h
        ∧ (validate_image_size rzI img).w = img.w)
    ∧ (modal_paint_mask rzM rzI img mask color opacity texture).width
        = (validate_image_size rzI img).w
    ∧ (modal_paint_mask rzM rzI img mask color opacity texture).height
        = (validate_image_size rzI img).h
    ∧ (modal_paint_mask rzM rzI img mask color opacity texture).painted.h
        = (validate_image_size rzI img).h
    ∧ (modal_paint_mask rzM rzI img mask color opacity texture).painted.w
        = (validate_image_size rzI img).w
    ∧ (modal_paint_multiple_masks rzM rzI img rs).width
        = (validate_image_size rzI img).w
    ∧ (modal_paint_multiple_masks rzM rzI img rs).height
        = (validate_image_size rzI img).h
    ∧ (∀ (s : Str) (img2 : Img), decode_image rzI s = .ok img2 →
        max img2.h img2.w ≤ 2048) := by
  have h1 : img.h > img.w →
      (validate_image_size rzI img).h = 2048
      ∧ (validate_image_size rzI img).w = pyIntMulDiv img.w 2048 img.h := by
    intro hx
    unfold validate_image_size
    rw [if_pos hbig, if_pos hx]
    exact ⟨rfl, rfl⟩
  have h2 : img.h ≤ img.w →
      (validate_image_size rzI img).w = 2048
      ∧ (validate_image_size rzI img).h = pyIntMulDiv img.h 2048 img.w := by
    intro hx
    unfold validate_image_size
    rw [if_pos hbig, if_neg (not_lt.mpr hx)]
    exact ⟨rfl, rfl⟩
  refine ⟨h1, h2, validate_image_size_le rzI img hh hw, ?_, rfl, rfl, rfl,
    rfl, rfl, rfl, ?_⟩
  · rintro ⟨hh2, hw2⟩
    by_cases hx : img.h > img.w
    · have ha := (h1 hx).1
      rw [hh2] at ha
      omega
    · push_neg at hx
      have ha := (h2 hx).1
      rw [hw2] at ha
      omega
  · intro s img2 hdec
    unfold decode_image at hdec
    split at hdec
    · cases hdec
    · rename_i bytes hbytes
      split at hdec
      · cases hdec
      · rename_i pimg hpimg
        injection hdec with h3
        rw [← h3]
        have hdims := parseImage_dims_lt bytes pimg
          (b64decode_bytes_lt _ _ hbytes) hpimg
        exact validate_image_size_le rzI (pilToRGB pimg)
          (by omega) (by omega)

set_option maxRecDepth 10000 in
/-- C10 (witness): a 4096x1024 image is downscaled to 2048x512 (the
float64 ratio is exact there), single-mask painting reports the validated
width, and the float64 embedding reproduces CPython: a 2244-tall,
561-wide image downscales to width 511, not the exact-ratio 512. -/
theorem C10_oracle_downscaling_witness :
    (validate_image_size rzImg0 img4096).h = 2048
    ∧ (validate_image_size rzImg0 img4096).w = pyIntMulDiv 1024 2048 4096
    ∧ pyIntMulDiv 1024 2048 4096 = 512
    ∧ pyIntMulDiv 561 2048 2244 = 511
    ∧ (modal_paint_mask rzMask0 rzImg0 img4096 mask11 "#FF0000" (7/10)
        (fun _ _ => 1)).width = (validate_image_size rzImg0 img4096).w := by
  have h := C10_oracle_downscaling rzMask0 rzImg0 img4096 mask11 "#FF0000"
    (7/10) (fun _ _ => 1) [] (by decide) (by decide) (by decide)
  exact ⟨(h.1 (by decide)).1, (h.1 (by decide)).2, by decide, by decide,
    h.2.2.2.2.1⟩

/-- C7: the mask codec round-trips — encoding a boolean grid as the
4-channel white-on-transparent bitmap in which every channel carries the
same 0/255 value, serializing it losslessly and base64-encoding, then
decoding (base64, image open, grayscale conversion, threshold value > 0)
recovers exactly the original grid. Dimensions are bounded by the 4-byte
dimension fields of the serialization. -/
theorem C7_mask_codec_roundtrip (M : List (List Bool))
    (hrect : ∀ r ∈ M, r.length = gridW M)
    (hh : M.length < 4294967296) (hw : gridW M < 4294967296) :
    decode_mask (encode_mask M) = .ok M :=
  decode_encode_mask M hrect hh hw

/-- C7 (witness): a concrete 2x2 grid round-trips. -/
theorem C7_mask_codec_roundtrip_witness :
    decode_mask (encode_mask [[true, false], [false, true]])
      = .ok [[true, false], [false, true]] :=
  C7_mask_codec_roundtrip [[true, false], [false, true]]
    (by decide) (by decide) (by decide)

/-- C8 (counterexample): the mask decoder does not strip a data-URI
head — the bare transport string of a grid decodes to the grid, but the
same string with the data-URI head prepended fails with DecodeError
(the head's residue corrupts the base64 stream), contradicting the claim
that the mask decoder accepts both forms with the same result. -/
theorem C8_counterexample :
    decode_mask (encode_mask [[true]]) = .ok [[true]]
    ∧ decode_mask (dataUriPng ++ encode_mask [[true]])
        = .error "DecodeError" :=
  ⟨decode_encode_mask [[true]] (by decide) (by decide) (by decide),
   prefixed_mask_decode_error [[true]]⟩

/-- C8 (amended): only the image decoder (`_decode_image`) strips a
leading data-URI head, yielding the same result with or without it; the
mask decoder (`_decode_mask`) performs no stripping, so a valid encoded
mask decodes to its grid while the same string with a data-URI head
prepended fails with DecodeError. -/
theorem C8_data_uri_stripping (rzI : Img → ℕ → ℕ → ℕ → ℕ → ℕ × ℕ × ℕ) :
    (∀ payload : Str, ',' ∉ payload → ':' ∉ payload →
        decode_image rzI (dataUriPng ++ payload) = decode_image rzI payload)
    ∧ (∀ M : List (List Bool), (∀ r ∈ M, r.length = gridW M) →
        M.length < 4294967296 → gridW M < 4294967296 →
        decode_mask (encode_mask M) = .ok M
        ∧ decode_mask (dataUriPng ++ encode_mask M)
            = .error "DecodeError") := by
  constructor
  · intro payload hc hcol
    unfold decode_image
    rw [strip_data_uri_prefixed payload hc, strip_data_uri_bare payload hcol]
  · intro M hrect hh hw
    exact ⟨decode_encode_mask M hrect hh hw, prefixed_mask_decode_error M⟩

/-- C8 (witness): the image decoder treats a prefixed and a bare payload
alike, and a concrete prefixed mask transport string is rejected. -/
theorem C8_data_uri_stripping_witness :
    decode_image rzImg0 (dataUriPng ++ ['A']) = decode_image rzImg0 ['A']
    ∧ decode_mask (dataUriPng ++ encode_mask [[true, false]])
        = .error "DecodeError" :=
  ⟨(C8_data_uri_stripping rzImg0).1 ['A'] (by decide) (by decide),
   ((C8_data_uri_stripping rzImg0).2 [[true, false]]
      (by decide) (by decide) (by decide)).2⟩

end PainterSAM2
